import Mathlib

/-!
Verification of the go-vagues trading core against its specification.

This file shallowly embeds the decision logic of the repository:
* the 1M Pattern + Volume + Delta strategy (`src/strategy/pattern_volume_delta.go`),
* the local order manager (`src/trading/order_manager.go`),
* the heuristic delta estimator (`calculateDelta` in the trading system).

Go `float64` values are modelled as exact rationals (`ℚ`); all arithmetic in the
translated code is +, -, *, / and comparisons, so the control flow is preserved
exactly, without floating-point rounding.  Go slices become `List`s, the Go map
of orders becomes an association list with Go-map overwrite semantics, and the
time-based order-ID generator becomes a counter (the source comments assert the
generated IDs are unique).  `time.Time` fields (entry/exit timestamps) and
logging-only fields (`verboseLogging`, `lastFilterFailure`) carry no decision
logic and are omitted.
-/

namespace Vagues

/-- `models.KLine`: one candlestick.  The `StartTime`/`EndTime` fields are wall-clock
metadata unused by any decision logic and are omitted. -/
structure KLine where
  Open : ℚ
  High : ℚ
  Low : ℚ
  Close : ℚ
  Volume : ℚ
  QuoteVolume : ℚ
deriving DecidableEq, Repr

/-- `models.Indicators`: technical indicators attached to a bar. -/
structure Indicators where
  EMA8 : ℚ
  EMA30 : ℚ
  EMA55 : ℚ
  EMA144 : ℚ
  EMA169 : ℚ
  MACD : ℚ
  MACDSignal : ℚ
  MACDHistogram : ℚ
  RSI : ℚ
deriving DecidableEq, Repr

/-- `models.MarketData`: a bar together with its indicators. -/
structure MarketData where
  kline : KLine
  indicators : Indicators
deriving DecidableEq, Repr

/-- `models.Delta`: order-flow delta sample. -/
structure Delta where
  Value : ℚ
  BuyVolume : ℚ
  SellVolume : ℚ
deriving DecidableEq, Repr

/-- `models.SignalType`. -/
inductive SignalType where
  | SignalNone
  | SignalLongEntry
  | SignalShortEntry
  | SignalLongExit
  | SignalShortExit
deriving DecidableEq, Repr

/-- `models.Pattern`: a detected price pattern. -/
structure Pattern where
  Direction : SignalType
  Confidence : ℚ
  Name : String
deriving DecidableEq, Repr

instance : Inhabited KLine := ⟨⟨0, 0, 0, 0, 0, 0⟩⟩

instance : Inhabited Indicators := ⟨⟨0, 0, 0, 0, 0, 0, 0, 0, 0⟩⟩

instance : Inhabited MarketData := ⟨⟨default, default⟩⟩

/-- The state and parameters of `strategy.PatternVolumeDeltaStrategy`.
`deltaLookbackTicks` and `emaLong` are configured but never read by the decision
code; the logging fields carry no decision logic; all are omitted. -/
structure PatternVolumeDeltaStrategy where
  hRatio : ℚ
  bLookback : ℕ
  mRatio : ℚ
  vLookback : ℕ
  vMult : ℚ
  deltaThreshMode : String
  deltaThreshAbs : ℚ
  deltaDynMult : ℚ
  useTrendFilter : Bool
  history : List MarketData
  deltaHistory : List ℚ
deriving DecidableEq, Repr

/-- `strategy.NewPatternVolumeDeltaStrategy`: the default configuration. -/
def NewPatternVolumeDeltaStrategy : PatternVolumeDeltaStrategy where
  hRatio := 2
  bLookback := 5
  mRatio := 0.7
  vLookback := 20
  vMult := 1.25
  deltaThreshMode := "dynamic"
  deltaThreshAbs := 100
  deltaDynMult := 0.8
  useTrendFilter := true
  history := []
  deltaHistory := []

/-- The append-then-trim idiom used for both bounded histories in `Analyze`:
`xs = append(xs, x); if len(xs) > cap { xs = xs[1:] }`. -/
def appendCapped {α : Type} (cap : ℕ) (xs : List α) (x : α) : List α :=
  let ys := xs ++ [x]
  if cap < ys.length then ys.drop 1 else ys

/-- The `models.Pattern` value `{Direction: NONE, Confidence: 0, Name: "None"}`
returned on every non-match. -/
def nonePattern : Pattern := ⟨SignalType.SignalNone, 0, "None"⟩

/-- `detectEngulfing` (pattern_volume_delta.go:179). -/
def detectEngulfing (current previous : MarketData) : Pattern :=
  let currentBody := |current.kline.Close - current.kline.Open|
  let previousBody := |previous.kline.Close - previous.kline.Open|
  if current.kline.Close > current.kline.Open ∧ previous.kline.Close < previous.kline.Open ∧
      current.kline.Open < previous.kline.Close ∧ current.kline.Close > previous.kline.Open ∧
      currentBody > previousBody then
    ⟨SignalType.SignalLongEntry, 0.8, "Bullish Engulfing"⟩
  else if current.kline.Close < current.kline.Open ∧ previous.kline.Close > previous.kline.Open ∧
      current.kline.Open > previous.kline.Close ∧ current.kline.Close < previous.kline.Open ∧
      currentBody > previousBody then
    ⟨SignalType.SignalShortEntry, 0.8, "Bearish Engulfing"⟩
  else nonePattern

/-- `detectHammer` (pattern_volume_delta.go:211). -/
def detectHammer (s : PatternVolumeDeltaStrategy) (candle : MarketData) : Pattern :=
  let body := |candle.kline.Close - candle.kline.Open|
  let upperShadow := candle.kline.High - max candle.kline.Open candle.kline.Close
  let lowerShadow := min candle.kline.Open candle.kline.Close - candle.kline.Low
  let totalRange := candle.kline.High - candle.kline.Low
  if totalRange = 0 then nonePattern
  else if body < totalRange * 0.3 ∧ lowerShadow ≥ body * s.hRatio ∧
      candle.kline.Close > (candle.kline.High + candle.kline.Low) / 2 then
    ⟨SignalType.SignalLongEntry, 0.7, "Hammer"⟩
  else if body < totalRange * 0.3 ∧ upperShadow ≥ body * s.hRatio ∧
      candle.kline.Close > (candle.kline.High + candle.kline.Low) / 2 then
    ⟨SignalType.SignalLongEntry, 0.7, "Inverted Hammer"⟩
  else nonePattern

/-- `detectInsideBar` (pattern_volume_delta.go:249): recognized but always
direction NONE. -/
def detectInsideBar (current previous : MarketData) : Pattern :=
  if current.kline.High < previous.kline.High ∧ current.kline.Low > previous.kline.Low then
    ⟨SignalType.SignalNone, 0, "Inside Bar"⟩
  else nonePattern

/-- `detectBreakout` (pattern_volume_delta.go:260).  The Go loop runs
`i` from `len(history)-2` down to `len(history)-bLookback-1` (clamped at 0),
i.e. over the `bLookback` bars immediately before the last history entry; the
running max/min are *initialized with the current bar's own high/low*. -/
def detectBreakout (s : PatternVolumeDeltaStrategy) (current : MarketData) : Pattern :=
  if s.history.length < s.bLookback + 1 then nonePattern
  else
    let prior := s.history.dropLast.drop (s.history.length - 1 - s.bLookback)
    let high := prior.foldl (fun h md => if md.kline.High > h then md.kline.High else h)
      current.kline.High
    let low := prior.foldl (fun l md => if md.kline.Low < l then md.kline.Low else l)
      current.kline.Low
    if current.kline.Close > high ∧ current.kline.Volume > 0 then
      ⟨SignalType.SignalLongEntry, 0.75, "Breakout"⟩
    else if current.kline.Close < low ∧ current.kline.Volume > 0 then
      ⟨SignalType.SignalShortEntry, 0.75, "Breakout"⟩
    else nonePattern

/-- `detectMomentumCandle` (pattern_volume_delta.go:299). -/
def detectMomentumCandle (s : PatternVolumeDeltaStrategy) (candle : MarketData) : Pattern :=
  let body := |candle.kline.Close - candle.kline.Open|
  let totalRange := candle.kline.High - candle.kline.Low
  if totalRange = 0 then nonePattern
  else if body ≥ totalRange * s.mRatio ∧ candle.kline.Volume > 0 then
    if candle.kline.Close > candle.kline.Open then
      ⟨SignalType.SignalLongEntry, 0.7, "Momentum Candle"⟩
    else
      ⟨SignalType.SignalShortEntry, 0.7, "Momentum Candle"⟩
  else nonePattern

/-- `detectPatterns` (pattern_volume_delta.go:157): fixed evaluation order,
first non-NONE direction wins. -/
def detectPatterns (s : PatternVolumeDeltaStrategy) (current previous : MarketData) : Pattern :=
  let p1 := detectEngulfing current previous
  if p1.Direction ≠ SignalType.SignalNone then p1
  else
    let p2 := detectHammer s current
    if p2.Direction ≠ SignalType.SignalNone then p2
    else
      let p3 := detectInsideBar current previous
      if p3.Direction ≠ SignalType.SignalNone then p3
      else
        let p4 := detectBreakout s current
        if p4.Direction ≠ SignalType.SignalNone then p4
        else
          let p5 := detectMomentumCandle s current
          if p5.Direction ≠ SignalType.SignalNone then p5
          else nonePattern

/-- `checkVolume` (pattern_volume_delta.go:328).  `availableData` excludes the
current (last) bar; the average runs over `min vLookback availableData` bars
immediately preceding the last history entry (`startIdx` to `len-2`). -/
def checkVolume (s : PatternVolumeDeltaStrategy) (candle : MarketData) : Bool :=
  let availableData := s.history.length - 1
  if availableData < 1 then false
  else
    let lookback := if availableData < s.vLookback then availableData else s.vLookback
    let startIdx := s.history.length - lookback - 1
    let window := (s.history.take (s.history.length - 1)).drop startIdx
    let sumVolume := window.foldl (fun a md => a + md.kline.Volume) 0
    let avgVolume := sumVolume / (lookback : ℚ)
    let threshold := avgVolume * s.vMult
    candle.kline.Volume ≥ threshold

/-- `checkDelta` (pattern_volume_delta.go:371). -/
def checkDelta (s : PatternVolumeDeltaStrategy) (delta : Delta)
    (patternDirection : SignalType) : Bool :=
  if s.deltaThreshMode = "dynamic" ∧ s.deltaHistory.length < 10 then false
  else
    let threshold :=
      if s.deltaThreshMode = "dynamic" then
        let sumAbs := s.deltaHistory.foldl (fun a d => a + |d|) 0
        let meanAbs := sumAbs / (s.deltaHistory.length : ℚ)
        meanAbs * s.deltaDynMult
      else s.deltaThreshAbs
    match patternDirection with
    | SignalType.SignalLongEntry => delta.Value ≥ threshold
    | SignalType.SignalShortEntry => delta.Value ≤ -threshold
    | _ => false

/-- `checkTrend` (pattern_volume_delta.go:423). -/
def checkTrend (candle : MarketData) (patternDirection : SignalType) : Bool :=
  let ema30 := candle.indicators.EMA30
  if ema30 = 0 then false
  else
    match patternDirection with
    | SignalType.SignalLongEntry => candle.kline.Close > ema30
    | SignalType.SignalShortEntry => candle.kline.Close < ema30
    | _ => false

/-- The strategy state after `Analyze`'s two unconditional appends
(pattern_volume_delta.go:75-84). -/
def analyzeAppend (s : PatternVolumeDeltaStrategy) (data : MarketData) (delta : Delta) :
    PatternVolumeDeltaStrategy :=
  { s with history := appendCapped 200 s.history data,
           deltaHistory := appendCapped 100 s.deltaHistory delta.Value }

/-- `history[len(history)-1]`, the current bar inside `Analyze`. -/
def curBar (s : PatternVolumeDeltaStrategy) : MarketData :=
  s.history.getD (s.history.length - 1) default

/-- `history[len(history)-2]`, the previous bar inside `Analyze`. -/
def prevBar (s : PatternVolumeDeltaStrategy) : MarketData :=
  s.history.getD (s.history.length - 2) default

/-- The filter chain of `Analyze` after the appends (pattern_volume_delta.go:86-153),
on the post-append state `t`.  The source binds `pattern` once; writing the pure
call `detectPatterns t (curBar t) (prevBar t)` at each use is the same value. -/
def analyzeRest (t : PatternVolumeDeltaStrategy) (delta : Delta) :
    SignalType × PatternVolumeDeltaStrategy :=
  if t.history.length < 2 then (SignalType.SignalNone, t)
  else if (detectPatterns t (curBar t) (prevBar t)).Direction = SignalType.SignalNone then
    (SignalType.SignalNone, t)
  else if ¬ checkVolume t (curBar t) then (SignalType.SignalNone, t)
  else if ¬ checkDelta t delta (detectPatterns t (curBar t) (prevBar t)).Direction then
    (SignalType.SignalNone, t)
  else if t.useTrendFilter ∧
      ¬ checkTrend (curBar t) (detectPatterns t (curBar t) (prevBar t)).Direction then
    (SignalType.SignalNone, t)
  else ((detectPatterns t (curBar t) (prevBar t)).Direction, t)

/-- `Analyze` (pattern_volume_delta.go:73): append to both histories, then the
filter chain.  Returns the signal together with the mutated strategy state. -/
def Analyze (s : PatternVolumeDeltaStrategy) (data : MarketData) (delta : Delta) :
    SignalType × PatternVolumeDeltaStrategy :=
  analyzeRest (analyzeAppend s data delta) delta

/-! ## Order manager (`src/trading/order_manager.go`) -/

/-- `trading.OrderStatus`. -/
inductive OrderStatus where
  | OPEN
  | FILLED
  | CANCELED
  | CLOSED
deriving DecidableEq, Repr

/-- `trading.OrderType`. -/
inductive OrderType where
  | LONG
  | SHORT
deriving DecidableEq, Repr

/-- `trading.LocalOrder`.  `EntryTime`/`ExitTime` are wall-clock metadata with no
decision logic and are omitted.  The Go `MaxHoldBars`/`BarsHeld` ints become `ℕ`
(they only ever count upward from 0). -/
structure LocalOrder where
  ID : String
  Symbol : String
  orderType : OrderType
  EntryPrice : ℚ
  ExitPrice : ℚ
  Quantity : ℚ
  Status : OrderStatus
  StopLoss : ℚ
  TakeProfit : ℚ
  TrailingStopLoss : ℚ
  TrailingEnabled : Bool
  TrailingPct : ℚ
  MaxHoldBars : ℕ
  BarsHeld : ℕ
  HighestPrice : ℚ
  LowestPrice : ℚ
  PnL : ℚ
  PnLPercent : ℚ
  TradingFee : ℚ
  FundingFee : ℚ
deriving DecidableEq, Repr

instance : Inhabited LocalOrder :=
  ⟨⟨"", "", OrderType.LONG, 0, 0, 0, OrderStatus.OPEN, 0, 0, 0, false, 0, 0, 0, 0, 0, 0, 0, 0, 0⟩⟩

/-- The Go `map[string]*LocalOrder`, as an association list with unique keys
maintained by overwrite-on-insert. -/
abbrev OrderMap := List (String × LocalOrder)

/-- Go map lookup `om.orders[id]` (as the `value, exists` form). -/
def mapFind (m : OrderMap) (k : String) : Option LocalOrder :=
  match m with
  | [] => none
  | (k', v) :: rest => if k' = k then some v else mapFind rest k

/-- Go map assignment `m[k] = v`: overwrite the existing binding or add a new one. -/
def mapInsert (m : OrderMap) (k : String) (v : LocalOrder) : OrderMap :=
  match m with
  | [] => [(k, v)]
  | (k', v') :: rest => if k' = k then (k, v) :: rest else (k', v') :: mapInsert rest k v

/-- Go map deletion `delete(m, k)`. -/
def mapErase (m : OrderMap) (k : String) : OrderMap :=
  match m with
  | [] => []
  | (k', v') :: rest => if k' = k then rest else (k', v') :: mapErase rest k

/-- `trading.OrderManager`.  `nextID` models the `generateOrderID` time source:
the source derives IDs from a nanosecond timestamp and asserts they are unique;
a strictly increasing counter realizes that uniqueness. -/
structure OrderManager where
  orders : OrderMap
  openOrders : List String
  totalPnL : ℚ
  nextID : ℕ

/-- `generateOrderID` (order_manager.go:356), with the nanosecond clock replaced
by the manager's counter. -/
def generateOrderID (n : ℕ) : String := "LOCAL_" ++ toString n

/-- `NewOrderManager` (order_manager.go:60). -/
def NewOrderManager : OrderManager := ⟨[], [], 0, 0⟩

/-- The order record built by `OpenLong`/`OpenShort` (order_manager.go:71,99);
only `orderType` differs between the two. -/
def newLocalOrder (orderID symbol : String) (ot : OrderType)
    (entryPrice quantity stopLoss takeProfit : ℚ) : LocalOrder where
  ID := orderID
  Symbol := symbol
  orderType := ot
  EntryPrice := entryPrice
  ExitPrice := 0
  Quantity := quantity
  Status := OrderStatus.OPEN
  StopLoss := stopLoss
  TakeProfit := takeProfit
  TrailingStopLoss := stopLoss
  TrailingEnabled := false
  TrailingPct := 0.002
  MaxHoldBars := 12
  BarsHeld := 0
  HighestPrice := entryPrice
  LowestPrice := entryPrice
  PnL := 0
  PnLPercent := 0
  TradingFee := 0
  FundingFee := 0

/-- `OpenLong` (order_manager.go:69). -/
def OpenLong (om : OrderManager) (symbol : String)
    (entryPrice quantity stopLoss takeProfit : ℚ) : String × OrderManager :=
  let orderID := generateOrderID om.nextID
  let order := newLocalOrder orderID symbol OrderType.LONG entryPrice quantity stopLoss takeProfit
  (orderID, { orders := mapInsert om.orders orderID order,
              openOrders := om.openOrders ++ [orderID],
              totalPnL := om.totalPnL,
              nextID := om.nextID + 1 })

/-- `OpenShort` (order_manager.go:97). -/
def OpenShort (om : OrderManager) (symbol : String)
    (entryPrice quantity stopLoss takeProfit : ℚ) : String × OrderManager :=
  let orderID := generateOrderID om.nextID
  let order := newLocalOrder orderID symbol OrderType.SHORT entryPrice quantity stopLoss takeProfit
  (orderID, { orders := mapInsert om.orders orderID order,
              openOrders := om.openOrders ++ [orderID],
              totalPnL := om.totalPnL,
              nextID := om.nextID + 1 })

/-- `calculatePnL` (order_manager.go:301).  The Go `default: return 0` branch is
unreachable: `OrderType` only ever holds LONG or SHORT. -/
def calculatePnL (order : LocalOrder) : ℚ :=
  let pricePnL :=
    match order.orderType with
    | OrderType.LONG => (order.ExitPrice - order.EntryPrice) * order.Quantity
    | OrderType.SHORT => (order.EntryPrice - order.ExitPrice) * order.Quantity
  pricePnL - order.TradingFee - order.FundingFee

/-- `calculatePnLPercent` (order_manager.go:317). -/
def calculatePnLPercent (order : LocalOrder) : ℚ :=
  if order.EntryPrice = 0 then 0
  else order.PnL / (order.EntryPrice * order.Quantity) * 100

/-- `removeOpenOrder` (order_manager.go:325): remove the first occurrence. -/
def removeOpenOrder (openOrders : List String) (orderID : String) : List String :=
  match openOrders with
  | [] => []
  | id :: rest => if id = orderID then rest else id :: removeOpenOrder rest orderID

/-- `CloseOrder` (order_manager.go:127).  Returns the updated manager on
success; the two Go error returns leave the manager untouched. -/
def CloseOrder (om : OrderManager) (orderID : String)
    (exitPrice tradingFee fundingFee : ℚ) : Except String OrderManager :=
  match mapFind om.orders orderID with
  | none => Except.error ("order does not exist: " ++ orderID)
  | some order =>
    if order.Status ≠ OrderStatus.OPEN then
      Except.error ("order status is not open: " ++ orderID)
    else
      let order := { order with ExitPrice := exitPrice, Status := OrderStatus.CLOSED,
                                TradingFee := tradingFee, FundingFee := fundingFee }
      let order := { order with PnL := calculatePnL order }
      let order := { order with PnLPercent := calculatePnLPercent order }
      Except.ok { orders := mapInsert om.orders orderID order,
                  openOrders := removeOpenOrder om.openOrders orderID,
                  totalPnL := om.totalPnL + order.PnL,
                  nextID := om.nextID }

/-- The per-order mutation at the top of `CheckStopLossTakeProfit`'s loop body
(order_manager.go:166-217): increment `BarsHeld`, update highest/lowest price,
enable the trailing stop at 50% of the take-profit fraction (seeding it at
`price * (1 ∓ TrailingPct)`), then ratchet an enabled trailing stop. -/
def updateOrderOnTick (order : LocalOrder) (currentPrice : ℚ) : LocalOrder :=
  let order := { order with BarsHeld := order.BarsHeld + 1 }
  let order := { order with
    HighestPrice := if currentPrice > order.HighestPrice then currentPrice else order.HighestPrice,
    LowestPrice := if currentPrice < order.LowestPrice then currentPrice else order.LowestPrice }
  let order :=
    if ¬ order.TrailingEnabled then
      let profitPct :=
        match order.orderType with
        | OrderType.LONG => (currentPrice - order.EntryPrice) / order.EntryPrice
        | OrderType.SHORT => (order.EntryPrice - currentPrice) / order.EntryPrice
      let tpPct :=
        match order.orderType with
        | OrderType.LONG => (order.TakeProfit - order.EntryPrice) / order.EntryPrice
        | OrderType.SHORT => (order.EntryPrice - order.TakeProfit) / order.EntryPrice
      if profitPct ≥ tpPct * 0.5 then
        { order with TrailingEnabled := true,
                     TrailingStopLoss :=
                       match order.orderType with
                       | OrderType.LONG => currentPrice * (1 - order.TrailingPct)
                       | OrderType.SHORT => currentPrice * (1 + order.TrailingPct) }
      else order
    else order
  if order.TrailingEnabled then
    match order.orderType with
    | OrderType.LONG =>
      let newTrailingStop := currentPrice * (1 - order.TrailingPct)
      if newTrailingStop > order.TrailingStopLoss then
        { order with TrailingStopLoss := newTrailingStop }
      else order
    | OrderType.SHORT =>
      let newTrailingStop := currentPrice * (1 + order.TrailingPct)
      if newTrailingStop < order.TrailingStopLoss then
        { order with TrailingStopLoss := newTrailingStop }
      else order
  else order

/-- The `shouldClose` exit decision of `CheckStopLossTakeProfit`
(order_manager.go:219-251), evaluated on the already-updated order: take-profit,
then trailing stop (if enabled), then static stop-loss, then timeout; the first
true condition closes. -/
def shouldCloseOrder (order : LocalOrder) (currentPrice : ℚ) : Bool :=
  match order.orderType with
  | OrderType.LONG =>
    if currentPrice ≥ order.TakeProfit then true
    else if order.TrailingEnabled ∧ currentPrice ≤ order.TrailingStopLoss then true
    else if currentPrice ≤ order.StopLoss then true
    else if order.BarsHeld ≥ order.MaxHoldBars then true
    else false
  | OrderType.SHORT =>
    if currentPrice ≤ order.TakeProfit then true
    else if order.TrailingEnabled ∧ currentPrice ≥ order.TrailingStopLoss then true
    else if currentPrice ≥ order.StopLoss then true
    else if order.BarsHeld ≥ order.MaxHoldBars then true
    else false

/-- `CheckStopLossTakeProfit` (order_manager.go:157).  The Go `range` is over the
`openOrders` slice as it was on entry to the function; pointer mutation of an
order becomes re-insertion into the map.  A `CloseOrder` error inside the loop
is ignored by the source (it cannot occur: the order was just found open). -/
def checkStopStep (currentPrice : ℚ) (acc : OrderManager × List String)
    (orderID : String) : OrderManager × List String :=
  let om := acc.1
  match mapFind om.orders orderID with
  | none => acc
  | some order =>
    if order.Status ≠ OrderStatus.OPEN then acc
    else
      let order := updateOrderOnTick order currentPrice
      let om := { om with orders := mapInsert om.orders orderID order }
      if shouldCloseOrder order currentPrice then
        match CloseOrder om orderID currentPrice 0 0 with
        | Except.ok om' => (om', acc.2 ++ [orderID])
        | Except.error _ => (om, acc.2 ++ [orderID])
      else (om, acc.2)

def CheckStopLossTakeProfit (om : OrderManager) (currentPrice : ℚ) :
    OrderManager × List String :=
  om.openOrders.foldl (checkStopStep currentPrice) (om, [])

/-- `UpdateOrderID` (order_manager.go:335): rekey the order in the map and
replace the first matching entry of `openOrders`. -/
def replaceFirst (xs : List String) (oldID newID : String) : List String :=
  match xs with
  | [] => []
  | id :: rest => if id = oldID then newID :: rest else id :: replaceFirst rest oldID newID

/-- `UpdateOrderID` (order_manager.go:335).  Note the Go statement order:
`orders[newID] = order` then `delete(orders, oldID)` — with `newID = oldID` the
order is first overwritten and then deleted. -/
def UpdateOrderID (om : OrderManager) (oldID newID : String) : OrderManager :=
  match mapFind om.orders oldID with
  | none => om
  | some order =>
    let order := { order with ID := newID }
    { om with orders := mapErase (mapInsert om.orders newID order) oldID,
              openOrders := replaceFirst om.openOrders oldID newID }

/-- `calculateDelta` (trading system): heuristic per-bar delta estimate from
OHLCV.  Returns the sample and the trading system's updated bounded
`deltaHistory` (append, trim to 100). -/
def calculateDelta (currentKline : KLine) (deltaHistory : List Delta) :
    Delta × List Delta :=
  let body := currentKline.Close - currentKline.Open
  let totalRange := currentKline.High - currentKline.Low
  let bs : ℚ × ℚ :=
    if totalRange > 0 then
      let upperPortion := (currentKline.Close - currentKline.Low) / totalRange
      if body > 0 then
        (currentKline.Volume * (0.5 + upperPortion * 0.3),
         currentKline.Volume * (0.5 - upperPortion * 0.3))
      else
        (currentKline.Volume * (0.5 - upperPortion * 0.3),
         currentKline.Volume * (0.5 + upperPortion * 0.3))
    else
      (currentKline.Volume * 0.5, currentKline.Volume * 0.5)
  let delta : Delta := ⟨bs.1 - bs.2, bs.1, bs.2⟩
  (delta, appendCapped 100 deltaHistory delta)

/-- The entry stop-loss/take-profit price computation of the trading system's
`openLongPosition` (part of the `trading` package): for a long entry at `close`,
`stopLoss = close * (1 - stopLossPct/100)` and
`takeProfit = close * (1 + takeProfitPct/100)`. -/
def longEntryPrices (close stopLossPct takeProfitPct : ℚ) : ℚ × ℚ :=
  (close * (1 - stopLossPct / 100), close * (1 + takeProfitPct / 100))

/-- The mirrored computation of `openShortPosition`:
`stopLoss = close * (1 + stopLossPct/100)`, `takeProfit = close * (1 - takeProfitPct/100)`. -/
def shortEntryPrices (close stopLossPct takeProfitPct : ℚ) : ℚ × ℚ :=
  (close * (1 + stopLossPct / 100), close * (1 - takeProfitPct / 100))

/-! ## Concrete fixtures used by counterexamples and witnesses -/

/-- An indicator set with `EMA30 = 1` (nonzero, so the trend filter is live). -/
def ind1 : Indicators where
  EMA8 := 0
  EMA30 := 1
  EMA55 := 0
  EMA144 := 0
  EMA169 := 0
  MACD := 0
  MACDSignal := 0
  MACDHistogram := 0
  RSI := 0

/-- A flat warm-up bar: OHLC all 10, volume 4. -/
def pBar : MarketData := ⟨⟨10, 10, 10, 10, 4, 0⟩, ind1⟩

/-- A full-body bullish bar: open 9, high 10, low 9, close 10, volume 5
(a momentum candle above its EMA30). -/
def cBar : MarketData := ⟨⟨9, 10, 9, 10, 5, 0⟩, ind1⟩

def deltaSample (v : ℚ) : Delta := ⟨v, 0, 0⟩

/-- The strategy state after nine `Analyze` calls on the flat warm-up bar with
zero delta: nine snapshots and nine delta samples in the histories. -/
def s9 : PatternVolumeDeltaStrategy :=
  (List.replicate 9 pBar).foldl (fun s b => (Analyze s b (deltaSample 0)).2)
    NewPatternVolumeDeltaStrategy

/-- A prior bar for the breakout fixture: high 10, low 9.5. -/
def bPrior : MarketData := ⟨⟨9.8, 10, 9.5, 9.9, 3, 0⟩, ind1⟩

/-- The breakout fixture bar: close 11 strictly above every prior high (10),
with nonzero volume. -/
def bCur : MarketData := ⟨⟨10, 12, 9, 11, 5, 0⟩, ind1⟩

/-- History of five prior bars followed by the breakout bar. -/
def sB : PatternVolumeDeltaStrategy :=
  { NewPatternVolumeDeltaStrategy with history := List.replicate 5 bPrior ++ [bCur] }

/-- The order the manager creates for a long entry at close 100 with the default
0.25% stop-loss and 0.6% take-profit configuration, built through the source's
entry pipeline (`longEntryPrices` then `OpenLong`). -/
def longFixture : LocalOrder :=
  (mapFind (OpenLong NewOrderManager "SYM" 100 1
    (longEntryPrices 100 0.25 0.6).1 (longEntryPrices 100 0.25 0.6).2).2.orders
    (generateOrderID 0)).getD default

/-- The short mirror of `longFixture`. -/
def shortFixture : LocalOrder :=
  (mapFind (OpenShort NewOrderManager "SYM" 100 1
    (shortEntryPrices 100 0.25 0.6).1 (shortEntryPrices 100 0.25 0.6).2).2.orders
    (generateOrderID 0)).getD default

/-! ## Helper lemmas -/

/-- A bar is valid when `high ≥ max(open, close)` and `min(open, close) ≥ low`
(spec §3; violating bars are rejected upstream). -/
def validBar (k : KLine) : Prop :=
  k.Low ≤ k.Open ∧ k.Low ≤ k.Close ∧ k.Open ≤ k.High ∧ k.Close ≤ k.High

instance (k : KLine) : Decidable (validBar k) := by
  unfold validBar; infer_instance

lemma le_foldl_high (l : List MarketData) (a : ℚ) :
    a ≤ l.foldl (fun h md => if md.kline.High > h then md.kline.High else h) a := by
  induction l generalizing a with
  | nil => exact le_refl a
  | cons x xs ih =>
    refine le_trans ?_ (ih (if x.kline.High > a then x.kline.High else a))
    split
    · exact le_of_lt (by assumption)
    · exact le_refl a

lemma foldl_low_le (l : List MarketData) (a : ℚ) :
    l.foldl (fun lo md => if md.kline.Low < lo then md.kline.Low else lo) a ≤ a := by
  induction l generalizing a with
  | nil => exact le_refl a
  | cons x xs ih =>
    refine le_trans (ih (if x.kline.Low < a then x.kline.Low else a)) ?_
    split
    · exact le_of_lt (by assumption)
    · exact le_refl a

/-- On any bar satisfying the spec's bar validity invariant, `detectBreakout`
returns no direction: the running max/min are seeded with the current bar's own
high/low, so `close > high` and `close < low` are both impossible. -/
lemma detectBreakout_none_of_valid (s : PatternVolumeDeltaStrategy) (c : MarketData)
    (hv : validBar c.kline) : detectBreakout s c = nonePattern := by
  rcases hv with ⟨-, h2, -, h4⟩
  simp only [detectBreakout]
  split
  · rfl
  · split
    · next hcond =>
        exact absurd hcond.1 (not_lt.mpr (le_trans h4 (le_foldl_high _ _)))
    · split
      · next hcond =>
          exact absurd hcond.1 (not_lt.mpr (le_trans (foldl_low_le _ _) h2))
      · rfl

lemma detectInsideBar_direction (c p : MarketData) :
    (detectInsideBar c p).Direction = SignalType.SignalNone := by
  unfold detectInsideBar
  split <;> rfl

/-- C5 — code_bug.  The claim (and the repo's own strategy document) says the
Breakout pattern fires when the close strictly exceeds the highest high of the
*prior* `bLookback` bars with nonzero volume.  The code seeds the running
max/min with the current bar's own high/low, so for any bar satisfying the
spec's validity invariant (`close ≤ high`, `close ≥ low`) the detector can
never fire.  First conjunct: the detector is unreachable on valid bars.
Remaining conjuncts: a concrete failing input — every prior high is 10, the
current close 11 strictly exceeds it with positive volume on a valid bar, yet
the code classifies no-pattern. -/
theorem detectBreakout_never_fires :
    (∀ (s : PatternVolumeDeltaStrategy) (c : MarketData), validBar c.kline →
      (detectBreakout s c).Direction = SignalType.SignalNone)
    ∧ sB.history.length = sB.bLookback + 1
    ∧ (∀ md ∈ sB.history.dropLast, md.kline.High = 10)
    ∧ validBar bCur.kline ∧ bCur.kline.Close > 10 ∧ bCur.kline.Volume > 0
    ∧ detectBreakout sB bCur = nonePattern := by
  refine ⟨fun s c hv => by rw [detectBreakout_none_of_valid s c hv]; rfl,
    by with_unfolding_all decide, by with_unfolding_all decide, by with_unfolding_all decide, by with_unfolding_all decide, by with_unfolding_all decide, by with_unfolding_all decide⟩

/-- Witness for `detectBreakout_never_fires`: its universally quantified part
applied to a concrete strategy state and bar. -/
theorem detectBreakout_never_fires_witness :
    validBar bPrior.kline ∧
      (detectBreakout NewPatternVolumeDeltaStrategy bPrior).Direction = SignalType.SignalNone :=
  ⟨by with_unfolding_all decide, detectBreakout_never_fires.1 NewPatternVolumeDeltaStrategy bPrior (by with_unfolding_all decide)⟩

/-- C9 — confirmed.  On a zero-range bar (`high = low`) satisfying the bar
validity invariant, every pattern detector declines (the hammer and momentum
detectors via their explicit zero-range guards, which also skip their
divisions), and the heuristic delta estimator takes its zero-range branch,
splitting the volume 50/50 instead of dividing by the zero range. -/
theorem zero_range_bar_safe :
    (∀ (s : PatternVolumeDeltaStrategy) (current previous : MarketData),
      current.kline.High = current.kline.Low → validBar current.kline →
      (detectPatterns s current previous).Direction = SignalType.SignalNone)
    ∧ (∀ (k : KLine) (hist : List Delta), k.High = k.Low →
      (calculateDelta k hist).1.BuyVolume = k.Volume * 0.5
      ∧ (calculateDelta k hist).1.SellVolume = k.Volume * 0.5
      ∧ (calculateDelta k hist).1.Value = 0) := by
  constructor
  · intro s current previous hz hv
    obtain ⟨hlo, hlc, hoh, hch⟩ := hv
    have hOC : current.kline.Open = current.kline.Close := by
      have h1 : current.kline.Open = current.kline.High := le_antisymm hoh (hz ▸ hlo)
      have h2 : current.kline.Close = current.kline.High := le_antisymm hch (hz ▸ hlc)
      rw [h1, h2]
    have hno : ¬ current.kline.Close > current.kline.Open := by
      rw [hOC]; exact lt_irrefl _
    have hno' : ¬ current.kline.Close < current.kline.Open := by
      rw [hOC]; exact lt_irrefl _
    have h1 : detectEngulfing current previous = nonePattern := by
      simp only [detectEngulfing]
      rw [if_neg (fun h => hno h.1), if_neg (fun h => hno' h.1)]
    have hrange : current.kline.High - current.kline.Low = 0 := sub_eq_zero_of_eq hz
    have h2 : detectHammer s current = nonePattern := by
      simp [detectHammer, hrange]
    have h5 : detectMomentumCandle s current = nonePattern := by
      simp [detectMomentumCandle, hrange]
    have h4 : detectBreakout s current = nonePattern :=
      detectBreakout_none_of_valid s current ⟨hlo, hlc, hoh, hch⟩
    simp [detectPatterns, h1, h2, detectInsideBar_direction, h4, h5, nonePattern]
  · intro k hist hz
    have hrange : k.High - k.Low = 0 := sub_eq_zero_of_eq hz
    refine ⟨?_, ?_, ?_⟩ <;> simp [calculateDelta, hrange]

/-- Witness for `zero_range_bar_safe`: a concrete zero-range bar. -/
theorem zero_range_bar_safe_witness :
    (detectPatterns NewPatternVolumeDeltaStrategy pBar cBar).Direction = SignalType.SignalNone
    ∧ (calculateDelta pBar.kline []).1.Value = 0 :=
  ⟨zero_range_bar_safe.1 NewPatternVolumeDeltaStrategy pBar cBar (by with_unfolding_all decide) (by with_unfolding_all decide),
   (zero_range_bar_safe.2 pBar.kline [] (by with_unfolding_all decide)).2.2⟩

lemma foldl_add_map {α : Type} (f : α → ℚ) (l : List α) :
    l.foldl (fun a x => a + f x) 0 = (l.map f).sum := by
  rw [List.sum_eq_foldl, List.foldl_map]

/-- A two-bar history whose single prior bar has volume 4 and whose current bar
has volume exactly `4 * 1.25 = 5`: the inclusive volume boundary. -/
def sV : PatternVolumeDeltaStrategy :=
  { NewPatternVolumeDeltaStrategy with history := [pBar, cBar] }

/-- C7 — confirmed.  Defaults `V_LOOKBACK = 20`, `V_MULT = 1.25`; the filter
rejects with zero prior bars; otherwise it passes exactly when the current
volume is at least (inclusive `≥`) the average over the
`min(V_LOOKBACK, prior-bar count)` bars immediately preceding the current one
(the current bar excluded) times `V_MULT`. -/
theorem checkVolume_spec :
    NewPatternVolumeDeltaStrategy.vLookback = 20
    ∧ NewPatternVolumeDeltaStrategy.vMult = 1.25
    ∧ (∀ (s : PatternVolumeDeltaStrategy) (candle : MarketData),
        s.history.length ≤ 1 → checkVolume s candle = false)
    ∧ (∀ (s : PatternVolumeDeltaStrategy) (candle : MarketData), 2 ≤ s.history.length →
        (checkVolume s candle = true ↔
          candle.kline.Volume ≥
            ((s.history.dropLast.drop
                (s.history.length - 1 - min s.vLookback (s.history.length - 1))).map
              (fun md => md.kline.Volume)).sum
              / ((min s.vLookback (s.history.length - 1) : ℕ) : ℚ) * s.vMult)) := by
  refine ⟨rfl, rfl, ?_, ?_⟩
  · intro s candle h
    simp only [checkVolume]
    split
    · rfl
    · next hcond => exact absurd (by omega : s.history.length - 1 < 1) hcond
  · intro s candle h
    simp only [checkVolume]
    split
    · next hcond => exact absurd hcond (by omega)
    · rw [decide_eq_true_iff]
      have hlb : (if s.history.length - 1 < s.vLookback then s.history.length - 1
          else s.vLookback) = min s.vLookback (s.history.length - 1) := by
        split <;> omega
      rw [hlb, foldl_add_map, ← List.dropLast_eq_take,
        (by omega : s.history.length - min s.vLookback (s.history.length - 1) - 1
          = s.history.length - 1 - min s.vLookback (s.history.length - 1))]

/-- Witness for `checkVolume_spec`: the spec's boundary fixture — the single
prior bar has volume 4, the current bar volume exactly `4 * 1.25 = 5`, and the
filter passes (inclusive `≥`). -/
theorem checkVolume_spec_witness : checkVolume sV cBar = true :=
  (checkVolume_spec.2.2.2 sV cBar (by with_unfolding_all decide)).mpr
    (by with_unfolding_all decide)

/-- C6 — corrected (the amended claim).  In dynamic mode the check rejects when
the delta history — which at check time already contains the current sample,
appended by `Analyze` — holds fewer than 10 samples, i.e. when fewer than 9
*prior* samples exist (not 10 as claimed); with at least 10 samples the
threshold is the mean of absolute values over the trailing at-most-100-sample
history (current sample included) times `D_MULT` (default 0.8), and the check
passes iff current delta ≥ +threshold (long) resp. ≤ −threshold (short). -/
theorem checkDelta_dynamic :
    NewPatternVolumeDeltaStrategy.deltaDynMult = 0.8
    ∧ NewPatternVolumeDeltaStrategy.deltaThreshMode = "dynamic"
    ∧ (∀ (s : PatternVolumeDeltaStrategy) (d : Delta) (dir : SignalType),
        s.deltaThreshMode = "dynamic" → s.deltaHistory.length < 10 →
        checkDelta s d dir = false)
    ∧ (∀ (s : PatternVolumeDeltaStrategy) (d : Delta), s.deltaThreshMode = "dynamic" →
        10 ≤ s.deltaHistory.length →
        (checkDelta s d SignalType.SignalLongEntry = true ↔
          d.Value ≥ (s.deltaHistory.map (fun x => |x|)).sum / (s.deltaHistory.length : ℚ)
            * s.deltaDynMult)
        ∧ (checkDelta s d SignalType.SignalShortEntry = true ↔
          d.Value ≤ -((s.deltaHistory.map (fun x => |x|)).sum / (s.deltaHistory.length : ℚ)
            * s.deltaDynMult)))
    ∧ (∀ (xs : List ℚ) (v : ℚ), xs.length ≤ 100 →
        ((appendCapped 100 xs v).length < 10 ↔ xs.length < 9))
    ∧ (∀ (xs : List ℚ) (v : ℚ), xs.length ≤ 100 → (appendCapped 100 xs v).length ≤ 100) := by
  refine ⟨rfl, rfl, ?_, ?_, ?_, ?_⟩
  · intro s d dir hmode hlen
    simp only [checkDelta]
    rw [if_pos ⟨hmode, hlen⟩]
  · intro s d hmode hlen
    have hneg : ¬ (s.deltaThreshMode = "dynamic" ∧ s.deltaHistory.length < 10) := by
      rintro ⟨-, h⟩; omega
    constructor
    · simp only [checkDelta]
      rw [if_neg hneg, if_pos hmode, decide_eq_true_iff, foldl_add_map]
    · simp only [checkDelta]
      rw [if_neg hneg, if_pos hmode, decide_eq_true_iff, foldl_add_map]
  · intro xs v h
    simp only [appendCapped]
    split <;> simp_all <;> omega
  · intro xs v h
    simp only [appendCapped]
    split <;> simp_all <;> omega

/-- Witness for `checkDelta_dynamic`: with exactly 10 samples list (mean of
absolute values 1, `D_MULT = 0.8`, threshold `0.8`) a long delta of 1 passes. -/
theorem checkDelta_dynamic_witness :
    checkDelta { NewPatternVolumeDeltaStrategy with deltaHistory := List.replicate 10 1 }
      (deltaSample 1) SignalType.SignalLongEntry = true :=
  ((checkDelta_dynamic.2.2.2.1
      { NewPatternVolumeDeltaStrategy with deltaHistory := List.replicate 10 1 }
      (deltaSample 1) rfl (by with_unfolding_all decide)).1).mpr
    (by with_unfolding_all decide)

/-- C6 — counterexample to the claim as stated: from the reachable state `s9`
there are only 9 prior delta samples, yet the delta check does not reject — the
full pipeline emits a long entry, because `Analyze` appends the current sample
before checking `len < 10`. -/
theorem checkDelta_nine_prior_passes :
    s9.deltaHistory.length = 9
    ∧ (Analyze s9 cBar (deltaSample 50)).1 = SignalType.SignalLongEntry := by
  with_unfolding_all decide

lemma detectEngulfing_direction (c p : MarketData) :
    (detectEngulfing c p).Direction = SignalType.SignalNone
    ∨ (detectEngulfing c p).Direction = SignalType.SignalLongEntry
    ∨ (detectEngulfing c p).Direction = SignalType.SignalShortEntry := by
  simp only [detectEngulfing]
  repeat' split
  all_goals simp [nonePattern]

lemma detectHammer_direction (s : PatternVolumeDeltaStrategy) (c : MarketData) :
    (detectHammer s c).Direction = SignalType.SignalNone
    ∨ (detectHammer s c).Direction = SignalType.SignalLongEntry
    ∨ (detectHammer s c).Direction = SignalType.SignalShortEntry := by
  simp only [detectHammer]
  repeat' split
  all_goals simp [nonePattern]

lemma detectBreakout_direction (s : PatternVolumeDeltaStrategy) (c : MarketData) :
    (detectBreakout s c).Direction = SignalType.SignalNone
    ∨ (detectBreakout s c).Direction = SignalType.SignalLongEntry
    ∨ (detectBreakout s c).Direction = SignalType.SignalShortEntry := by
  simp only [detectBreakout]
  repeat' split
  all_goals simp [nonePattern]

lemma detectMomentumCandle_direction (s : PatternVolumeDeltaStrategy) (c : MarketData) :
    (detectMomentumCandle s c).Direction = SignalType.SignalNone
    ∨ (detectMomentumCandle s c).Direction = SignalType.SignalLongEntry
    ∨ (detectMomentumCandle s c).Direction = SignalType.SignalShortEntry := by
  simp only [detectMomentumCandle]
  repeat' split
  all_goals simp [nonePattern]

lemma detectPatterns_direction (s : PatternVolumeDeltaStrategy) (c p : MarketData) :
    (detectPatterns s c p).Direction = SignalType.SignalNone
    ∨ (detectPatterns s c p).Direction = SignalType.SignalLongEntry
    ∨ (detectPatterns s c p).Direction = SignalType.SignalShortEntry := by
  simp only [detectPatterns]
  split
  · exact detectEngulfing_direction c p
  · split
    · exact detectHammer_direction s c
    · split
      · exact Or.inl (detectInsideBar_direction c p)
      · split
        · exact detectBreakout_direction s c
        · split
          · exact detectMomentumCandle_direction s c
          · exact Or.inl rfl

/-- C1 — confirmed.  `Analyze` appends, then requires ≥ 2 snapshots, then runs
Pattern → Volume → Delta → (optional) Trend, each failure yielding no-signal
(conjunction semantics, so the first failing check decides), and emits the
detected pattern's direction — long-entry or short-entry — exactly when every
check passes. -/
theorem analyze_fusion_pipeline (s : PatternVolumeDeltaStrategy) (data : MarketData)
    (delta : Delta) :
    ((analyzeAppend s data delta).history.length < 2 →
      (Analyze s data delta).1 = SignalType.SignalNone)
    ∧ ((Analyze s data delta).1 ≠ SignalType.SignalNone ↔
        2 ≤ (analyzeAppend s data delta).history.length
        ∧ (detectPatterns (analyzeAppend s data delta) (curBar (analyzeAppend s data delta))
            (prevBar (analyzeAppend s data delta))).Direction ≠ SignalType.SignalNone
        ∧ checkVolume (analyzeAppend s data delta) (curBar (analyzeAppend s data delta)) = true
        ∧ checkDelta (analyzeAppend s data delta) delta
            (detectPatterns (analyzeAppend s data delta) (curBar (analyzeAppend s data delta))
              (prevBar (analyzeAppend s data delta))).Direction = true
        ∧ (s.useTrendFilter = true →
            checkTrend (curBar (analyzeAppend s data delta))
              (detectPatterns (analyzeAppend s data delta) (curBar (analyzeAppend s data delta))
                (prevBar (analyzeAppend s data delta))).Direction = true))
    ∧ ((Analyze s data delta).1 ≠ SignalType.SignalNone →
        (Analyze s data delta).1 =
          (detectPatterns (analyzeAppend s data delta) (curBar (analyzeAppend s data delta))
            (prevBar (analyzeAppend s data delta))).Direction
        ∧ ((Analyze s data delta).1 = SignalType.SignalLongEntry
           ∨ (Analyze s data delta).1 = SignalType.SignalShortEntry)) := by
  have hAn : Analyze s data delta = analyzeRest (analyzeAppend s data delta) delta := rfl
  set t := analyzeAppend s data delta with ht
  have happ : t.useTrendFilter = s.useTrendFilter := rfl
  have hdir := detectPatterns_direction t (curBar t) (prevBar t)
  rw [hAn]
  unfold analyzeRest
  by_cases h2 : t.history.length < 2
  · rw [if_pos h2]
    exact ⟨fun _ => rfl, by simp; omega, fun hne => absurd rfl hne⟩
  · rw [if_neg h2]
    by_cases hpat : (detectPatterns t (curBar t) (prevBar t)).Direction = SignalType.SignalNone
    · rw [if_pos hpat]
      refine ⟨fun _ => rfl, ?_, fun hne => absurd rfl hne⟩
      simp only [ne_eq, not_true_eq_false, false_iff, not_and]
      intro _ hpat'
      exact absurd hpat hpat'
    · rw [if_neg hpat]
      by_cases hvol : checkVolume t (curBar t) = true
      · rw [if_neg (by simp [hvol])]
        by_cases hdel :
            checkDelta t delta (detectPatterns t (curBar t) (prevBar t)).Direction = true
        · rw [if_neg (by simp [hdel])]
          by_cases htr : t.useTrendFilter = true
              ∧ ¬ checkTrend (curBar t) (detectPatterns t (curBar t) (prevBar t)).Direction = true
          · rw [if_pos (by simpa using htr)]
            refine ⟨fun _ => rfl, ?_, fun hne => absurd rfl hne⟩
            simp only [ne_eq, not_true_eq_false, false_iff, not_and]
            intro _ _ _ _ htrend
            rw [happ] at htr
            exact htr.2 (htrend htr.1)
          · rw [if_neg (by simpa using htr)]
            have htrend : s.useTrendFilter = true →
                checkTrend (curBar t) (detectPatterns t (curBar t) (prevBar t)).Direction = true := by
              intro htf
              rw [happ] at htr
              by_contra hc
              exact htr ⟨htf, hc⟩
            refine ⟨fun hlt => absurd hlt h2, ?_, ?_⟩
            · exact iff_of_true hpat ⟨by omega, hpat, hvol, hdel, htrend⟩
            · intro hne
              refine ⟨rfl, ?_⟩
              rcases hdir with h | h | h
              · exact absurd h hpat
              · exact Or.inl h
              · exact Or.inr h
        · rw [if_pos (by simp [hdel])]
          refine ⟨fun _ => rfl, ?_, fun hne => absurd rfl hne⟩
          simp only [ne_eq, not_true_eq_false, false_iff, not_and]
          intro _ _ _ hdel'
          exact absurd hdel' hdel
      · rw [if_pos (by simp [hvol])]
        refine ⟨fun _ => rfl, ?_, fun hne => absurd rfl hne⟩
        simp only [ne_eq, not_true_eq_false, false_iff, not_and]
        intro _ _ hvol'
        exact absurd hvol' hvol

/-- Witness for `analyze_fusion_pipeline`: on the concrete fixture every check
passes and the iff yields a non-none signal. -/
theorem analyze_fusion_pipeline_witness :
    (Analyze s9 cBar (deltaSample 100)).1 ≠ SignalType.SignalNone :=
  ((analyze_fusion_pipeline s9 cBar (deltaSample 100)).2.1).mpr
    (by with_unfolding_all decide)

lemma analyzeRest_state (t : PatternVolumeDeltaStrategy) (delta : Delta) :
    (analyzeRest t delta).2 = t := by
  unfold analyzeRest
  repeat' split
  all_goals rfl

/-- C8 — corrected (the amended claim).  Every `Analyze` call — including a
second call with the same bar and delta and no new bar in between — appends the
bar to the snapshot history and the delta value to the delta history (trimming
at capacities 200/100): the histories are mutated by the second call, and the
signal may differ. -/
theorem analyze_always_appends (s : PatternVolumeDeltaStrategy) (data : MarketData)
    (delta : Delta) :
    (Analyze s data delta).2.history = appendCapped 200 s.history data
    ∧ (Analyze s data delta).2.deltaHistory = appendCapped 100 s.deltaHistory delta.Value := by
  have h : (Analyze s data delta).2 = analyzeAppend s data delta := analyzeRest_state _ _
  rw [h]
  exact ⟨rfl, rfl⟩

/-- C8 — counterexample to the claim as stated: from the reachable state `s9`,
the first call emits a long entry; the immediate second call with the identical
bar and delta grows both histories (mutation) and returns no-signal (the
duplicated bar raises the volume average above the threshold). -/
theorem analyze_second_call_differs :
    (Analyze s9 cBar (deltaSample 100)).1 = SignalType.SignalLongEntry
    ∧ (Analyze (Analyze s9 cBar (deltaSample 100)).2 cBar (deltaSample 100)).1
        = SignalType.SignalNone
    ∧ (Analyze (Analyze s9 cBar (deltaSample 100)).2 cBar (deltaSample 100)).2.history
        ≠ (Analyze s9 cBar (deltaSample 100)).2.history
    ∧ (Analyze (Analyze s9 cBar (deltaSample 100)).2 cBar (deltaSample 100)).2.deltaHistory
        ≠ (Analyze s9 cBar (deltaSample 100)).2.deltaHistory := by
  with_unfolding_all decide

/-! ## Per-tick lemmas on `updateOrderOnTick` -/

lemma tick_fields (o : LocalOrder) (p : ℚ) :
    (updateOrderOnTick o p).orderType = o.orderType
    ∧ (updateOrderOnTick o p).EntryPrice = o.EntryPrice
    ∧ (updateOrderOnTick o p).StopLoss = o.StopLoss
    ∧ (updateOrderOnTick o p).TakeProfit = o.TakeProfit
    ∧ (updateOrderOnTick o p).MaxHoldBars = o.MaxHoldBars
    ∧ (updateOrderOnTick o p).TrailingPct = o.TrailingPct
    ∧ (updateOrderOnTick o p).BarsHeld = o.BarsHeld + 1
    ∧ (updateOrderOnTick o p).Status = o.Status := by
  simp only [updateOrderOnTick]
  repeat' split
  all_goals simp

lemma tick_enable_long (o : LocalOrder) (p : ℚ) (h1 : o.orderType = OrderType.LONG)
    (h2 : o.TrailingEnabled = false) :
    ((updateOrderOnTick o p).TrailingEnabled = true ↔
      (p - o.EntryPrice) / o.EntryPrice ≥ (o.TakeProfit - o.EntryPrice) / o.EntryPrice * 0.5)
    ∧ ((p - o.EntryPrice) / o.EntryPrice ≥ (o.TakeProfit - o.EntryPrice) / o.EntryPrice * 0.5 →
        (updateOrderOnTick o p).TrailingStopLoss = p * (1 - o.TrailingPct))
    ∧ (¬ (p - o.EntryPrice) / o.EntryPrice ≥ (o.TakeProfit - o.EntryPrice) / o.EntryPrice * 0.5 →
        (updateOrderOnTick o p).TrailingEnabled = false
        ∧ (updateOrderOnTick o p).TrailingStopLoss = o.TrailingStopLoss) := by
  by_cases hcond : (p - o.EntryPrice) / o.EntryPrice
      ≥ (o.TakeProfit - o.EntryPrice) / o.EntryPrice * 0.5
  · simp [updateOrderOnTick, h1, h2, hcond]
  · simp [updateOrderOnTick, h1, h2, hcond]

lemma tick_enable_short (o : LocalOrder) (p : ℚ) (h1 : o.orderType = OrderType.SHORT)
    (h2 : o.TrailingEnabled = false) :
    ((updateOrderOnTick o p).TrailingEnabled = true ↔
      (o.EntryPrice - p) / o.EntryPrice ≥ (o.EntryPrice - o.TakeProfit) / o.EntryPrice * 0.5)
    ∧ ((o.EntryPrice - p) / o.EntryPrice ≥ (o.EntryPrice - o.TakeProfit) / o.EntryPrice * 0.5 →
        (updateOrderOnTick o p).TrailingStopLoss = p * (1 + o.TrailingPct))
    ∧ (¬ (o.EntryPrice - p) / o.EntryPrice ≥ (o.EntryPrice - o.TakeProfit) / o.EntryPrice * 0.5 →
        (updateOrderOnTick o p).TrailingEnabled = false
        ∧ (updateOrderOnTick o p).TrailingStopLoss = o.TrailingStopLoss) := by
  by_cases hcond : (o.EntryPrice - p) / o.EntryPrice
      ≥ (o.EntryPrice - o.TakeProfit) / o.EntryPrice * 0.5
  · simp [updateOrderOnTick, h1, h2, hcond]
  · simp [updateOrderOnTick, h1, h2, hcond]

lemma tick_enabled_long (o : LocalOrder) (p : ℚ) (h1 : o.orderType = OrderType.LONG)
    (h2 : o.TrailingEnabled = true) :
    (updateOrderOnTick o p).TrailingEnabled = true
    ∧ (updateOrderOnTick o p).TrailingStopLoss
        = max (p * (1 - o.TrailingPct)) o.TrailingStopLoss := by
  simp only [updateOrderOnTick, h1, h2]
  constructor
  · repeat' split
    all_goals simp
  · repeat' split
    all_goals simp_all
    all_goals linarith

lemma tick_enabled_short (o : LocalOrder) (p : ℚ) (h1 : o.orderType = OrderType.SHORT)
    (h2 : o.TrailingEnabled = true) :
    (updateOrderOnTick o p).TrailingEnabled = true
    ∧ (updateOrderOnTick o p).TrailingStopLoss
        = min (p * (1 + o.TrailingPct)) o.TrailingStopLoss := by
  simp only [updateOrderOnTick, h1, h2]
  constructor
  · repeat' split
    all_goals simp
  · repeat' split
    all_goals simp_all
    all_goals linarith

set_option maxRecDepth 10000 in
lemma longFixture_fields :
    longFixture.orderType = OrderType.LONG ∧ longFixture.TrailingEnabled = false
    ∧ longFixture.EntryPrice = 100 ∧ longFixture.TakeProfit = 100.6
    ∧ longFixture.StopLoss = 99.75 ∧ longFixture.MaxHoldBars = 12
    ∧ longFixture.BarsHeld = 0 ∧ longFixture.TrailingPct = 0.002
    ∧ longFixture.TrailingStopLoss = 99.75 := by
  with_unfolding_all decide

set_option maxRecDepth 10000 in
lemma shortFixture_fields :
    shortFixture.orderType = OrderType.SHORT ∧ shortFixture.TrailingEnabled = false
    ∧ shortFixture.EntryPrice = 100 ∧ shortFixture.TakeProfit = 99.4
    ∧ shortFixture.StopLoss = 100.25 ∧ shortFixture.MaxHoldBars = 12
    ∧ shortFixture.BarsHeld = 0 ∧ shortFixture.TrailingPct = 0.002
    ∧ shortFixture.TrailingStopLoss = 100.25 := by
  with_unfolding_all decide

/-- The exit decision for a long order, as the ordered disjunction of the four
checked conditions. -/
lemma shouldClose_long_iff (o : LocalOrder) (p : ℚ) (h : o.orderType = OrderType.LONG) :
    (shouldCloseOrder o p = true ↔
      p ≥ o.TakeProfit ∨ (o.TrailingEnabled = true ∧ p ≤ o.TrailingStopLoss)
      ∨ p ≤ o.StopLoss ∨ o.MaxHoldBars ≤ o.BarsHeld) := by
  simp only [shouldCloseOrder, h]
  split_ifs <;> simp_all <;> tauto

lemma shouldClose_short_iff (o : LocalOrder) (p : ℚ) (h : o.orderType = OrderType.SHORT) :
    (shouldCloseOrder o p = true ↔
      p ≤ o.TakeProfit ∨ (o.TrailingEnabled = true ∧ p ≥ o.TrailingStopLoss)
      ∨ p ≥ o.StopLoss ∨ o.MaxHoldBars ≤ o.BarsHeld) := by
  simp only [shouldCloseOrder, h]
  split_ifs <;> simp_all <;> tauto

/-- Along any run of in-range prices (above the stop-loss, below the trailing
activation level 100.3) the long fixture stays un-trailed and its parameters
are unchanged, while `BarsHeld` counts the ticks. -/
lemma run_inv_long (pre : List ℚ) (o : LocalOrder)
    (h : ∀ q ∈ pre, (99.75 : ℚ) < q ∧ q < 100.3)
    (h1 : o.orderType = OrderType.LONG) (h2 : o.TrailingEnabled = false)
    (h3 : o.EntryPrice = 100) (h4 : o.TakeProfit = 100.6) (h5 : o.StopLoss = 99.75)
    (h6 : o.MaxHoldBars = 12) :
    (pre.foldl updateOrderOnTick o).orderType = OrderType.LONG
    ∧ (pre.foldl updateOrderOnTick o).TrailingEnabled = false
    ∧ (pre.foldl updateOrderOnTick o).EntryPrice = 100
    ∧ (pre.foldl updateOrderOnTick o).TakeProfit = 100.6
    ∧ (pre.foldl updateOrderOnTick o).StopLoss = 99.75
    ∧ (pre.foldl updateOrderOnTick o).MaxHoldBars = 12
    ∧ (pre.foldl updateOrderOnTick o).BarsHeld = o.BarsHeld + pre.length := by
  induction pre generalizing o with
  | nil => simpa using ⟨h1, h2, h3, h4, h5, h6⟩
  | cons q qs ih =>
    have hq := h q (List.mem_cons_self q qs)
    have hqs : ∀ r ∈ qs, (99.75 : ℚ) < r ∧ r < 100.3 :=
      fun r hr => h r (List.mem_cons_of_mem q hr)
    obtain ⟨f1, f2, f3, f4, f5, f6, f7, -⟩ := tick_fields o q
    have hnen : ¬ (q - o.EntryPrice) / o.EntryPrice
        ≥ (o.TakeProfit - o.EntryPrice) / o.EntryPrice * 0.5 := by
      rw [h3, h4]
      intro hge
      have := hq.2
      linarith
    have hen := (tick_enable_long o q h1 h2).2.2 hnen
    have hrec := ih (updateOrderOnTick o q) hqs (f1.trans h1) hen.1 (f2.trans h3)
      (f4.trans h4) (f3.trans h5) (f5.trans h6)
    rw [List.foldl_cons]
    refine ⟨hrec.1, hrec.2.1, hrec.2.2.1, hrec.2.2.2.1, hrec.2.2.2.2.1, hrec.2.2.2.2.2.1, ?_⟩
    rw [hrec.2.2.2.2.2.2, f7]
    simp only [List.length_cons]
    omega

/-- C3 — confirmed.  The trailing stop is enabled exactly when the unrealized
profit fraction reaches 50% of the take-profit fraction, seeded at
`price * (1 - trailing_pct)` for a long (mirrored for a short); once enabled it
is non-decreasing for a long position and non-increasing for a short position
across any sequence of price updates. -/
theorem trailing_stop_monotone :
    (∀ (o : LocalOrder) (p : ℚ), o.TrailingEnabled = false → o.orderType = OrderType.LONG →
      ((updateOrderOnTick o p).TrailingEnabled = true ↔
        (p - o.EntryPrice) / o.EntryPrice ≥ (o.TakeProfit - o.EntryPrice) / o.EntryPrice * 0.5)
      ∧ ((updateOrderOnTick o p).TrailingEnabled = true →
          (updateOrderOnTick o p).TrailingStopLoss = p * (1 - o.TrailingPct)))
    ∧ (∀ (o : LocalOrder) (ps : List ℚ), o.TrailingEnabled = true →
        o.orderType = OrderType.LONG →
        o.TrailingStopLoss ≤ (ps.foldl updateOrderOnTick o).TrailingStopLoss)
    ∧ (∀ (o : LocalOrder) (ps : List ℚ), o.TrailingEnabled = true →
        o.orderType = OrderType.SHORT →
        (ps.foldl updateOrderOnTick o).TrailingStopLoss ≤ o.TrailingStopLoss) := by
  have longRun : ∀ (ps : List ℚ) (o : LocalOrder), o.TrailingEnabled = true →
      o.orderType = OrderType.LONG →
      (ps.foldl updateOrderOnTick o).TrailingEnabled = true
      ∧ (ps.foldl updateOrderOnTick o).orderType = OrderType.LONG
      ∧ o.TrailingStopLoss ≤ (ps.foldl updateOrderOnTick o).TrailingStopLoss := by
    intro ps
    induction ps with
    | nil => exact fun o h2 h1 => ⟨h2, h1, le_refl _⟩
    | cons q qs ih =>
      intro o h2 h1
      obtain ⟨he, hts⟩ := tick_enabled_long o q h1 h2
      have hty : (updateOrderOnTick o q).orderType = OrderType.LONG :=
        (tick_fields o q).1.trans h1
      obtain ⟨a, b, c⟩ := ih (updateOrderOnTick o q) he hty
      rw [List.foldl_cons]
      refine ⟨a, b, le_trans ?_ c⟩
      rw [hts]
      exact le_max_right _ _
  have shortRun : ∀ (ps : List ℚ) (o : LocalOrder), o.TrailingEnabled = true →
      o.orderType = OrderType.SHORT →
      (ps.foldl updateOrderOnTick o).TrailingEnabled = true
      ∧ (ps.foldl updateOrderOnTick o).orderType = OrderType.SHORT
      ∧ (ps.foldl updateOrderOnTick o).TrailingStopLoss ≤ o.TrailingStopLoss := by
    intro ps
    induction ps with
    | nil => exact fun o h2 h1 => ⟨h2, h1, le_refl _⟩
    | cons q qs ih =>
      intro o h2 h1
      obtain ⟨he, hts⟩ := tick_enabled_short o q h1 h2
      have hty : (updateOrderOnTick o q).orderType = OrderType.SHORT :=
        (tick_fields o q).1.trans h1
      obtain ⟨a, b, c⟩ := ih (updateOrderOnTick o q) he hty
      rw [List.foldl_cons]
      refine ⟨a, b, le_trans c ?_⟩
      rw [hts]
      exact min_le_right _ _
  refine ⟨?_, ?_, ?_⟩
  · intro o p h2 h1
    obtain ⟨hiff, hseed, -⟩ := tick_enable_long o p h1 h2
    exact ⟨hiff, fun hen => hseed (hiff.mp hen)⟩
  · exact fun o ps h2 h1 => (longRun ps o h2 h1).2.2
  · exact fun o ps h2 h1 => (shortRun ps o h2 h1).2.2

/-- A long order whose trailing stop has just been enabled (price 100.4 reached
50% of the take-profit fraction). -/
def oEn : LocalOrder := updateOrderOnTick longFixture 100.4

/-- Witness for `trailing_stop_monotone`: across a concrete up-down-up price
path the enabled trailing stop never decreases. -/
theorem trailing_stop_monotone_witness :
    oEn.TrailingStopLoss ≤ (([101, 99.9, 102] : List ℚ).foldl updateOrderOnTick oEn).TrailingStopLoss :=
  trailing_stop_monotone.2.1 oEn [101, 99.9, 102]
    (by with_unfolding_all decide) (by with_unfolding_all decide)

/-- C2 — confirmed.  Exit conditions for an updated order are the ordered
checks take-profit → trailing stop (only if enabled) → static stop-loss →
timeout, all with inclusive comparisons; for the default long fixture
(entry 100, SL 0.25%, TP 0.6% through the source's entry-price pipeline) a
single update closes exactly at price ≥ 100.6 or ≤ 99.75; the short mirror
closes exactly at price ≤ 99.4 or ≥ 100.25; and when every price stays strictly
inside (99.75, 100.3) — no earlier exit condition fires and the trailing stop
never activates — the timeout closes the position exactly on the tick where the
bars-held counter reaches `MaxHoldBars = 12`. -/
theorem exit_priority_and_thresholds :
    (longFixture.StopLoss = 99.75 ∧ longFixture.TakeProfit = 100.6
      ∧ longFixture.MaxHoldBars = 12 ∧ shortFixture.StopLoss = 100.25
      ∧ shortFixture.TakeProfit = 99.4 ∧ shortFixture.MaxHoldBars = 12)
    ∧ (∀ (o : LocalOrder) (p : ℚ), o.orderType = OrderType.LONG →
        (shouldCloseOrder o p = true ↔
          p ≥ o.TakeProfit ∨ (o.TrailingEnabled = true ∧ p ≤ o.TrailingStopLoss)
          ∨ p ≤ o.StopLoss ∨ o.MaxHoldBars ≤ o.BarsHeld))
    ∧ (∀ (o : LocalOrder) (p : ℚ), o.orderType = OrderType.SHORT →
        (shouldCloseOrder o p = true ↔
          p ≤ o.TakeProfit ∨ (o.TrailingEnabled = true ∧ p ≥ o.TrailingStopLoss)
          ∨ p ≥ o.StopLoss ∨ o.MaxHoldBars ≤ o.BarsHeld))
    ∧ (∀ p : ℚ, shouldCloseOrder (updateOrderOnTick longFixture p) p = true ↔
        p ≥ 100.6 ∨ p ≤ 99.75)
    ∧ (∀ p : ℚ, shouldCloseOrder (updateOrderOnTick shortFixture p) p = true ↔
        p ≤ 99.4 ∨ p ≥ 100.25)
    ∧ (∀ (pre : List ℚ) (p : ℚ), (∀ q ∈ pre, (99.75 : ℚ) < q ∧ q < 100.3) →
        99.75 < p → p < 100.3 →
        (shouldCloseOrder (updateOrderOnTick (pre.foldl updateOrderOnTick longFixture) p) p
          = true ↔ 12 ≤ pre.length + 1)) := by
  obtain ⟨hf1, hf2, hf3, hf4, hf5, hf6, hf7, hf8, hf9⟩ := longFixture_fields
  obtain ⟨hg1, hg2, hg3, hg4, hg5, hg6, hg7, hg8, hg9⟩ := shortFixture_fields
  refine ⟨⟨hf5, hf4, hf6, hg5, hg4, hg6⟩,
    fun o p h => shouldClose_long_iff o p h,
    fun o p h => shouldClose_short_iff o p h, ?_, ?_, ?_⟩
  · intro p
    obtain ⟨u1, u2, u3, u4, u5, u6, u7, -⟩ := tick_fields longFixture p
    rw [shouldClose_long_iff _ p (u1.trans hf1), u4, hf4, u3, hf5, u5, hf6, u7, hf7]
    by_cases hp : (100.3 : ℚ) ≤ p
    · have hcond : (p - longFixture.EntryPrice) / longFixture.EntryPrice
          ≥ (longFixture.TakeProfit - longFixture.EntryPrice) / longFixture.EntryPrice * 0.5 := by
        rw [hf3, hf4]
        linarith
      have hen := (tick_enable_long longFixture p hf1 hf2).1.mpr hcond
      have hseed := (tick_enable_long longFixture p hf1 hf2).2.1 hcond
      rw [hen, hseed, hf8]
      constructor
      · rintro (h | ⟨-, h⟩ | h | h)
        · exact Or.inl h
        · exact absurd h (by linarith)
        · exact Or.inr h
        · exact absurd h (by norm_num)
      · rintro (h | h)
        · exact Or.inl h
        · exact Or.inr (Or.inr (Or.inl h))
    · have hncond : ¬ (p - longFixture.EntryPrice) / longFixture.EntryPrice
          ≥ (longFixture.TakeProfit - longFixture.EntryPrice) / longFixture.EntryPrice * 0.5 := by
        rw [hf3, hf4]
        intro hge
        exact hp (by linarith)
      obtain ⟨hen, -⟩ := (tick_enable_long longFixture p hf1 hf2).2.2 hncond
      rw [hen]
      constructor
      · rintro (h | ⟨hfalse, -⟩ | h | h)
        · exact Or.inl h
        · exact absurd hfalse (by simp)
        · exact Or.inr h
        · exact absurd h (by norm_num)
      · rintro (h | h)
        · exact Or.inl h
        · exact Or.inr (Or.inr (Or.inl h))
  · intro p
    obtain ⟨u1, u2, u3, u4, u5, u6, u7, -⟩ := tick_fields shortFixture p
    rw [shouldClose_short_iff _ p (u1.trans hg1), u4, hg4, u3, hg5, u5, hg6, u7, hg7]
    by_cases hp : p ≤ (99.7 : ℚ)
    · have hcond : (shortFixture.EntryPrice - p) / shortFixture.EntryPrice
          ≥ (shortFixture.EntryPrice - shortFixture.TakeProfit) / shortFixture.EntryPrice * 0.5 := by
        rw [hg3, hg4]
        linarith
      have hen := (tick_enable_short shortFixture p hg1 hg2).1.mpr hcond
      have hseed := (tick_enable_short shortFixture p hg1 hg2).2.1 hcond
      rw [hen, hseed, hg8]
      constructor
      · rintro (h | ⟨-, h⟩ | h | h)
        · exact Or.inl h
        · exact Or.inl (by linarith)
        · exact Or.inr h
        · exact absurd h (by norm_num)
      · rintro (h | h)
        · exact Or.inl h
        · exact Or.inr (Or.inr (Or.inl h))
    · have hncond : ¬ (shortFixture.EntryPrice - p) / shortFixture.EntryPrice
          ≥ (shortFixture.EntryPrice - shortFixture.TakeProfit) / shortFixture.EntryPrice * 0.5 := by
        rw [hg3, hg4]
        intro hge
        exact hp (by linarith)
      obtain ⟨hen, -⟩ := (tick_enable_short shortFixture p hg1 hg2).2.2 hncond
      rw [hen]
      constructor
      · rintro (h | ⟨hfalse, -⟩ | h | h)
        · exact Or.inl h
        · exact absurd hfalse (by simp)
        · exact Or.inr h
        · exact absurd h (by norm_num)
      · rintro (h | h)
        · exact Or.inl h
        · exact Or.inr (Or.inr (Or.inl h))
  · intro pre p hpre hp1 hp2
    obtain ⟨i1, i2, i3, i4, i5, i6, i7⟩ := run_inv_long pre longFixture hpre hf1 hf2 hf3 hf4 hf5 hf6
    obtain ⟨u1, u2, u3, u4, u5, u6, u7, -⟩ :=
      tick_fields (pre.foldl updateOrderOnTick longFixture) p
    have hncond : ¬ (p - (pre.foldl updateOrderOnTick longFixture).EntryPrice)
          / (pre.foldl updateOrderOnTick longFixture).EntryPrice
        ≥ ((pre.foldl updateOrderOnTick longFixture).TakeProfit
            - (pre.foldl updateOrderOnTick longFixture).EntryPrice)
          / (pre.foldl updateOrderOnTick longFixture).EntryPrice * 0.5 := by
      rw [i3, i4]
      intro hge
      linarith
    obtain ⟨hen, -⟩ :=
      (tick_enable_long (pre.foldl updateOrderOnTick longFixture) p i1 i2).2.2 hncond
    rw [shouldClose_long_iff _ p (u1.trans i1), u4, i4, u3, i5, u5, i6, u7, i7, hen, hf7]
    constructor
    · rintro (h | ⟨hfalse, -⟩ | h | h)
      · exact absurd h (by linarith)
      · exact absurd hfalse (by simp)
      · exact absurd h (by linarith)
      · omega
    · intro h
      exact Or.inr (Or.inr (Or.inr (by omega)))

/-- Witness for `exit_priority_and_thresholds`: the long fixture closes on a
single tick exactly at the inclusive take-profit boundary 100.6, and under flat
in-range prices the timeout closes it exactly on the 12th tick. -/
theorem exit_priority_and_thresholds_witness :
    shouldCloseOrder (updateOrderOnTick longFixture 100.6) 100.6 = true
    ∧ shouldCloseOrder
        (updateOrderOnTick ((List.replicate 11 (100 : ℚ)).foldl updateOrderOnTick longFixture) 100)
        100 = true :=
  ⟨(exit_priority_and_thresholds.2.2.2.1 100.6).mpr (Or.inl (by norm_num)),
   (exit_priority_and_thresholds.2.2.2.2.2 (List.replicate 11 100) 100
      (by with_unfolding_all decide) (by norm_num) (by norm_num)).mpr
     (by simp)⟩

/-! ## Lemmas on the Go-map model and the open-order list -/

lemma mapFind_insert (m : OrderMap) (k : String) (v : LocalOrder) (k' : String) :
    mapFind (mapInsert m k v) k' = if k = k' then some v else mapFind m k' := by
  induction m with
  | nil =>
    simp only [mapInsert, mapFind]
  | cons a as ih =>
    by_cases heq : a.1 = k
    · simp only [mapInsert, if_pos heq, mapFind]
      by_cases h2 : k = k'
      · rw [if_pos h2, if_pos h2]
      · rw [if_neg h2, if_neg h2, if_neg (fun hk : a.1 = k' => h2 (heq ▸ hk))]
    · simp only [mapInsert, if_neg heq, mapFind, ih]
      by_cases h2 : a.1 = k'
      · have hk : ¬ k = k' := fun hkk => heq (hkk ▸ h2)
        rw [if_pos h2, if_pos h2, if_neg hk]
      · rw [if_neg h2, if_neg h2]

lemma mapFind_insert_self (m : OrderMap) (k : String) (v : LocalOrder) :
    mapFind (mapInsert m k v) k = some v := by
  rw [mapFind_insert, if_pos rfl]

lemma mapFind_insert_ne (m : OrderMap) (k : String) (v : LocalOrder) (k' : String)
    (h : k ≠ k') : mapFind (mapInsert m k v) k' = mapFind m k' := by
  rw [mapFind_insert, if_neg h]

lemma mapFind_erase_ne (m : OrderMap) (k k' : String) (h : k ≠ k') :
    mapFind (mapErase m k) k' = mapFind m k' := by
  induction m with
  | nil => rfl
  | cons a as ih =>
    simp only [mapErase]
    split
    · next heq => rw [mapFind, if_neg (heq ▸ h)]
    · next hne => simp only [mapFind, ih]

lemma mapFind_eq_none_iff (m : OrderMap) (k : String) :
    mapFind m k = none ↔ k ∉ m.map Prod.fst := by
  induction m with
  | nil => simp [mapFind]
  | cons a as ih =>
    by_cases heq : a.1 = k
    · simp [mapFind, heq]
    · rw [mapFind, if_neg heq, ih]
      simp only [List.map_cons, List.mem_cons]
      constructor
      · rintro h (h1 | h2)
        · exact heq h1.symm
        · exact h h2
      · exact fun h h2 => h (Or.inr h2)

lemma mapKeys_insert_some (m : OrderMap) (k : String) (v : LocalOrder) (o : LocalOrder)
    (h : mapFind m k = some o) :
    (mapInsert m k v).map Prod.fst = m.map Prod.fst := by
  induction m with
  | nil => simp [mapFind] at h
  | cons a as ih =>
    simp only [mapInsert]
    rw [mapFind] at h
    split
    · next heq => simp [heq]
    · next hne =>
        rw [if_neg hne] at h
        simp [ih h]

lemma mapKeys_insert_none (m : OrderMap) (k : String) (v : LocalOrder)
    (h : mapFind m k = none) :
    (mapInsert m k v).map Prod.fst = m.map Prod.fst ++ [k] := by
  induction m with
  | nil => simp [mapInsert]
  | cons a as ih =>
    rw [mapFind] at h
    simp only [mapInsert]
    split
    · next heq => rw [if_pos heq] at h; exact absurd h (by simp)
    · next hne =>
        rw [if_neg hne] at h
        simp [ih h]

lemma mapErase_keys_sublist (m : OrderMap) (k : String) :
    ((mapErase m k).map Prod.fst).Sublist (m.map Prod.fst) := by
  induction m with
  | nil => simp [mapErase]
  | cons a as ih =>
    simp only [mapErase]
    split
    · exact (List.sublist_cons_self _ _)
    · simpa using ih.cons₂ a.1

lemma mapFind_erase_self (m : OrderMap) (k : String)
    (hnodup : (m.map Prod.fst).Nodup) : mapFind (mapErase m k) k = none := by
  induction m with
  | nil => rfl
  | cons a as ih =>
    rw [List.map_cons, List.nodup_cons] at hnodup
    obtain ⟨hna, hnas⟩ := hnodup
    simp only [mapErase]
    split
    · next heq =>
        rw [mapFind_eq_none_iff]
        rw [heq] at hna
        exact hna
    · next hne => rw [mapFind, if_neg hne, ih hnas]

lemma mapErase_of_find_none (m : OrderMap) (k : String) (h : mapFind m k = none) :
    mapErase m k = m := by
  induction m with
  | nil => rfl
  | cons a as ih =>
    rw [mapFind] at h
    simp only [mapErase]
    split
    · next heq => rw [if_pos heq] at h; exact absurd h (by simp)
    · next hne => rw [if_neg hne] at h; rw [ih h]

/-- The contribution of an order to the closed-PnL total. -/
def contrPnL (o : LocalOrder) : ℚ := if o.Status = OrderStatus.CLOSED then o.PnL else 0

/-- Sum of the PnL of all closed orders in the map. -/
def sumClosedPnL (m : OrderMap) : ℚ := (m.map (fun p => contrPnL p.2)).sum

lemma sumClosedPnL_insert_some (m : OrderMap) (k : String) (v o : LocalOrder)
    (h : mapFind m k = some o) :
    sumClosedPnL (mapInsert m k v) = sumClosedPnL m - contrPnL o + contrPnL v := by
  induction m with
  | nil => simp [mapFind] at h
  | cons a as ih =>
    rw [mapFind] at h
    simp only [mapInsert]
    split
    · next heq =>
        rw [if_pos heq] at h
        obtain rfl : a.2 = o := by injection h
        simp [sumClosedPnL]
        ring
    · next hne =>
        rw [if_neg hne] at h
        simp only [sumClosedPnL, List.map_cons, List.sum_cons] at ih ⊢
        rw [ih h]
        ring

lemma sumClosedPnL_insert_none (m : OrderMap) (k : String) (v : LocalOrder)
    (h : mapFind m k = none) :
    sumClosedPnL (mapInsert m k v) = sumClosedPnL m + contrPnL v := by
  induction m with
  | nil => simp [mapInsert, sumClosedPnL]
  | cons a as ih =>
    rw [mapFind] at h
    simp only [mapInsert]
    split
    · next heq => rw [if_pos heq] at h; exact absurd h (by simp)
    · next hne =>
        rw [if_neg hne] at h
        simp only [sumClosedPnL, List.map_cons, List.sum_cons] at ih ⊢
        rw [ih h]
        ring

lemma sumClosedPnL_erase_some (m : OrderMap) (k : String) (o : LocalOrder)
    (h : mapFind m k = some o) :
    sumClosedPnL (mapErase m k) = sumClosedPnL m - contrPnL o := by
  induction m with
  | nil => simp [mapFind] at h
  | cons a as ih =>
    rw [mapFind] at h
    simp only [mapErase]
    split
    · next heq =>
        rw [if_pos heq] at h
        obtain rfl : a.2 = o := by injection h
        simp [sumClosedPnL]
    · next hne =>
        rw [if_neg hne] at h
        simp only [sumClosedPnL, List.map_cons, List.sum_cons] at ih ⊢
        rw [ih h]
        ring

lemma removeOpenOrder_sublist (xs : List String) (id : String) :
    (removeOpenOrder xs id).Sublist xs := by
  induction xs with
  | nil => simp [removeOpenOrder]
  | cons a as ih =>
    simp only [removeOpenOrder]
    split
    · exact List.sublist_cons_self _ _
    · exact ih.cons₂ a

lemma not_mem_removeOpenOrder (xs : List String) (id : String) (h : xs.Nodup) :
    id ∉ removeOpenOrder xs id := by
  induction xs with
  | nil => simp [removeOpenOrder]
  | cons a as ih =>
    obtain ⟨hna, hnas⟩ := List.nodup_cons.mp h
    simp only [removeOpenOrder]
    split
    · next heq => rw [heq] at hna; exact hna
    · next hne =>
        simp only [List.mem_cons]
        rintro (h1 | h2)
        · exact hne h1.symm
        · exact ih hnas h2

lemma mem_removeOpenOrder_of_ne (xs : List String) (id y : String) (hne : y ≠ id) :
    y ∈ removeOpenOrder xs id ↔ y ∈ xs := by
  induction xs with
  | nil => simp [removeOpenOrder]
  | cons a as ih =>
    simp only [removeOpenOrder]
    split
    · next heq =>
        simp only [List.mem_cons]
        constructor
        · exact Or.inr
        · rintro (h1 | h2)
          · exact absurd (h1.trans heq) hne
          · exact h2
    · next h =>
        simp only [List.mem_cons, ih]

/-- C4 — confirmed.  A successful `CloseOrder` on an open order stores
`PnL = (exit − entry) × qty` (long) resp. `(entry − exit) × qty` (short) minus
the trading and funding fees, sets `PnLPercent = PnL / (entry × qty) × 100`,
marks the order closed, removes its ID from the open-order list, and raises the
manager's total PnL by exactly the order's PnL. -/
theorem closeOrder_accounting (om : OrderManager) (orderID : String)
    (exitPrice tradingFee fundingFee : ℚ) (order : LocalOrder)
    (hfind : mapFind om.orders orderID = some order)
    (hopen : order.Status = OrderStatus.OPEN)
    (hnodup : om.openOrders.Nodup) :
    ∃ om', CloseOrder om orderID exitPrice tradingFee fundingFee = Except.ok om'
      ∧ ∃ o', mapFind om'.orders orderID = some o'
        ∧ o'.Status = OrderStatus.CLOSED
        ∧ o'.PnL = (match order.orderType with
            | OrderType.LONG => (exitPrice - order.EntryPrice) * order.Quantity
            | OrderType.SHORT => (order.EntryPrice - exitPrice) * order.Quantity)
            - tradingFee - fundingFee
        ∧ o'.PnLPercent = o'.PnL / (order.EntryPrice * order.Quantity) * 100
        ∧ orderID ∉ om'.openOrders
        ∧ om'.totalPnL = om.totalPnL + o'.PnL := by
  have hnot : ¬ order.Status ≠ OrderStatus.OPEN := by simp [hopen]
  simp only [CloseOrder, hfind, if_neg hnot]
  refine ⟨_, rfl, _, mapFind_insert_self _ _ _, rfl, ?_, ?_, ?_, rfl⟩
  · cases hty : order.orderType <;> simp [calculatePnL, hty]
  · by_cases hz : order.EntryPrice = 0
    · simp [calculatePnLPercent, hz]
    · simp [calculatePnLPercent, hz]
  · exact not_mem_removeOpenOrder _ _ hnodup

/-- The manager holding one open long order (entry 100, quantity 2), used to
witness `closeOrder_accounting`. -/
def omC4 : OrderManager := (OpenLong NewOrderManager "SYM" 100 2 99.75 100.6).2

set_option maxRecDepth 10000 in
/-- Witness for `closeOrder_accounting`: closing the long at 101 with fees
0.3 + 0.1 yields total PnL (101−100)·2 − 0.4 = 1.6. -/
theorem closeOrder_accounting_witness :
    ∃ om', CloseOrder omC4 (generateOrderID 0) 101 0.3 0.1 = Except.ok om'
      ∧ om'.totalPnL = 1.6 := by
  obtain ⟨om', heq, o', hfind, hst, hpnl, hpct, hmem, htot⟩ :=
    closeOrder_accounting omC4 (generateOrderID 0) 101 0.3 0.1
      ((mapFind omC4.orders (generateOrderID 0)).getD default)
      (by with_unfolding_all decide) (by with_unfolding_all decide)
      (by with_unfolding_all decide)
  refine ⟨om', heq, ?_⟩
  rw [htot, hpnl]
  with_unfolding_all decide

/-! ## C10: the order-manager state invariant -/

/-- One operation on an `OrderManager`, for quantifying over call sequences. -/
inductive Op where
  | openLong (symbol : String) (entryPrice quantity stopLoss takeProfit : ℚ)
  | openShort (symbol : String) (entryPrice quantity stopLoss takeProfit : ℚ)
  | closeOrder (orderID : String) (exitPrice tradingFee fundingFee : ℚ)
  | updateOrderID (oldID newID : String)
  | checkStop (currentPrice : ℚ)

/-- Apply one operation; a failing `CloseOrder` leaves the manager unchanged,
as in the source (the error is returned, no state was mutated). -/
def applyOp (om : OrderManager) : Op → OrderManager
  | Op.openLong s e q sl tp => (OpenLong om s e q sl tp).2
  | Op.openShort s e q sl tp => (OpenShort om s e q sl tp).2
  | Op.closeOrder id p f g =>
      match CloseOrder om id p f g with
      | Except.ok om' => om'
      | Except.error _ => om
  | Op.updateOrderID oldID newID => UpdateOrderID om oldID newID
  | Op.checkStop p => (CheckStopLossTakeProfit om p).1

/-- Freshness side conditions: a locally generated ID, and the exchange ID
passed to `UpdateOrderID`, must not collide with an existing order ID.  This is
exactly the uniqueness the source assumes of its time-based `generateOrderID`
and of exchange-issued order IDs. -/
def GoodOp (om : OrderManager) : Op → Prop
  | Op.openLong _ _ _ _ _ => mapFind om.orders (generateOrderID om.nextID) = none
  | Op.openShort _ _ _ _ _ => mapFind om.orders (generateOrderID om.nextID) = none
  | Op.closeOrder _ _ _ _ => True
  | Op.updateOrderID _ newID => mapFind om.orders newID = none
  | Op.checkStop _ => True

instance (om : OrderManager) (op : Op) : Decidable (GoodOp om op) := by
  cases op <;> simp only [GoodOp] <;> infer_instance

def applyOps (om : OrderManager) (ops : List Op) : OrderManager :=
  ops.foldl applyOp om

def GoodOps : OrderManager → List Op → Prop
  | _, [] => True
  | om, op :: ops => GoodOp om op ∧ GoodOps (applyOp om op) ops

instance instDecidableGoodOps (om : OrderManager) : (ops : List Op) → Decidable (GoodOps om ops)
  | [] => Decidable.isTrue trivial
  | op :: ops => @instDecidableAnd _ _ _ (instDecidableGoodOps (applyOp om op) ops)

/-- The order-manager state invariant: the open-order list holds exactly the
IDs of orders whose status is open, without duplicates; the total PnL is the
sum of the PnL of the closed orders; and the map's keys are distinct. -/
structure OMInv (om : OrderManager) : Prop where
  keysNodup : (om.orders.map Prod.fst).Nodup
  openIff : ∀ id, id ∈ om.openOrders ↔
    ∃ o, mapFind om.orders id = some o ∧ o.Status = OrderStatus.OPEN
  openNodup : om.openOrders.Nodup
  pnl : om.totalPnL = sumClosedPnL om.orders

/-- C10 — counterexample to the claim as stated: after an `OpenLong` followed by
`UpdateOrderID` with `newID = oldID`, the order is deleted from the map (the Go
code assigns `orders[newID] = order` and then `delete(orders, oldID)`), yet its
ID remains in the open-order list: the list then contains an ID with no
corresponding order at all. -/
theorem updateOrderID_self_breaks_invariant :
    generateOrderID 0
      ∈ (UpdateOrderID (OpenLong NewOrderManager "SYM" 100 1 99.75 100.6).2
          (generateOrderID 0) (generateOrderID 0)).openOrders
    ∧ mapFind (UpdateOrderID (OpenLong NewOrderManager "SYM" 100 1 99.75 100.6).2
          (generateOrderID 0) (generateOrderID 0)).orders (generateOrderID 0) = none := by
  with_unfolding_all decide

lemma mem_replaceFirst_sub (xs : List String) (oldID newID y : String)
    (h : y ∈ replaceFirst xs oldID newID) : y = newID ∨ y ∈ xs := by
  induction xs with
  | nil => simp [replaceFirst] at h
  | cons a as ih =>
    simp only [replaceFirst] at h
    split at h
    · rcases List.mem_cons.mp h with h1 | h2
      · exact Or.inl h1
      · exact Or.inr (List.mem_cons_of_mem a h2)
    · rcases List.mem_cons.mp h with h1 | h2
      · exact Or.inr (h1 ▸ List.mem_cons_self a as)
      · rcases ih h2 with h3 | h4
        · exact Or.inl h3
        · exact Or.inr (List.mem_cons_of_mem a h4)

lemma mem_replaceFirst (xs : List String) (oldID newID y : String) (hnodup : xs.Nodup) :
    y ∈ replaceFirst xs oldID newID ↔
      (y = newID ∧ oldID ∈ xs) ∨ (y ∈ xs ∧ y ≠ oldID) := by
  induction xs with
  | nil => simp [replaceFirst]
  | cons a as ih =>
    obtain ⟨hna, hnas⟩ := List.nodup_cons.mp hnodup
    simp only [replaceFirst]
    split
    · next heq =>
        subst heq
        constructor
        · intro h
          rcases List.mem_cons.mp h with h1 | h2
          · exact Or.inl ⟨h1, List.mem_cons_self a as⟩
          · exact Or.inr ⟨List.mem_cons_of_mem a h2, fun hy => hna (hy ▸ h2)⟩
        · rintro (⟨h1, -⟩ | ⟨h2, h3⟩)
          · exact h1 ▸ List.mem_cons_self newID as
          · rcases List.mem_cons.mp h2 with h4 | h5
            · exact absurd h4 h3
            · exact List.mem_cons_of_mem newID h5
    · next hne =>
        constructor
        · intro h
          rcases List.mem_cons.mp h with h1 | h2
          · subst h1
            exact Or.inr ⟨List.mem_cons_self y as, hne⟩
          · rcases (ih hnas).mp h2 with ⟨h3, h4⟩ | ⟨h5, h6⟩
            · exact Or.inl ⟨h3, List.mem_cons_of_mem a h4⟩
            · exact Or.inr ⟨List.mem_cons_of_mem a h5, h6⟩
        · rintro (⟨h1, h2⟩ | ⟨h3, h4⟩)
          · rcases List.mem_cons.mp h2 with h5 | h6
            · exact absurd h5.symm hne
            · exact List.mem_cons_of_mem a ((ih hnas).mpr (Or.inl ⟨h1, h6⟩))
          · rcases List.mem_cons.mp h3 with h5 | h6
            · exact h5 ▸ List.mem_cons_self a _
            · exact List.mem_cons_of_mem a ((ih hnas).mpr (Or.inr ⟨h6, h4⟩))

lemma replaceFirst_of_not_mem (xs : List String) (oldID newID : String)
    (h : oldID ∉ xs) : replaceFirst xs oldID newID = xs := by
  induction xs with
  | nil => rfl
  | cons a as ih =>
    simp only [replaceFirst]
    rw [if_neg (fun heq : a = oldID => h (by rw [← heq]; exact List.mem_cons_self a as)),
      ih (fun hm => h (List.mem_cons_of_mem a hm))]

lemma replaceFirst_nodup (xs : List String) (oldID newID : String)
    (hnodup : xs.Nodup) (hnew : newID ∉ xs) : (replaceFirst xs oldID newID).Nodup := by
  induction xs with
  | nil => simp [replaceFirst]
  | cons a as ih =>
    obtain ⟨hna, hnas⟩ := List.nodup_cons.mp hnodup
    have hnew1 : newID ≠ a := fun h => hnew (h ▸ List.mem_cons_self a as)
    have hnew2 : newID ∉ as := fun h => hnew (List.mem_cons_of_mem a h)
    simp only [replaceFirst]
    split
    · exact List.nodup_cons.mpr ⟨hnew2, hnas⟩
    · refine List.nodup_cons.mpr ⟨?_, ih hnas hnew2⟩
      intro hmem
      rcases mem_replaceFirst_sub as oldID newID a hmem with h1 | h2
      · exact hnew1 h1.symm
      · exact hna h2

lemma newLocalOrder_status (orderID symbol : String) (ot : OrderType)
    (e q sl tp : ℚ) : (newLocalOrder orderID symbol ot e q sl tp).Status = OrderStatus.OPEN := rfl

lemma openLong_inv (om : OrderManager) (s : String) (e q sl tp : ℚ) (hInv : OMInv om)
    (hfresh : mapFind om.orders (generateOrderID om.nextID) = none) :
    OMInv (OpenLong om s e q sl tp).2 := by
  have hnotin : generateOrderID om.nextID ∉ om.orders.map Prod.fst :=
    (mapFind_eq_none_iff _ _).mp hfresh
  have hnotopen : generateOrderID om.nextID ∉ om.openOrders := by
    intro hmem
    obtain ⟨o, h1, -⟩ := (hInv.openIff _).mp hmem
    rw [hfresh] at h1
    cases h1
  refine ⟨?_, ?_, ?_, ?_⟩
  · rw [show (OpenLong om s e q sl tp).2.orders
        = mapInsert om.orders (generateOrderID om.nextID) _ from rfl,
      mapKeys_insert_none _ _ _ hfresh]
    exact hInv.keysNodup.append (List.nodup_singleton _)
      (fun x hx hy => hnotin (by rwa [List.mem_singleton.mp hy] at hx))
  · intro id
    show id ∈ om.openOrders ++ [generateOrderID om.nextID] ↔ _
    by_cases hid : id = generateOrderID om.nextID
    · subst hid
      refine iff_of_true (List.mem_append_right _ (List.mem_singleton_self _)) ?_
      exact ⟨_, mapFind_insert_self _ _ _, newLocalOrder_status _ _ _ _ _ _ _⟩
    · rw [show mapFind (OpenLong om s e q sl tp).2.orders id
          = mapFind om.orders id from mapFind_insert_ne _ _ _ _ (fun h => hid h.symm)]
      rw [List.mem_append, List.mem_singleton]
      simp only [hid, or_false]
      exact hInv.openIff id
  · exact hInv.openNodup.append (List.nodup_singleton _)
      (fun x hx hy => hnotopen (by rwa [List.mem_singleton.mp hy] at hx))
  · show om.totalPnL = sumClosedPnL (mapInsert om.orders (generateOrderID om.nextID) _)
    rw [sumClosedPnL_insert_none _ _ _ hfresh, hInv.pnl]
    simp [contrPnL, newLocalOrder_status]

lemma openShort_inv (om : OrderManager) (s : String) (e q sl tp : ℚ) (hInv : OMInv om)
    (hfresh : mapFind om.orders (generateOrderID om.nextID) = none) :
    OMInv (OpenShort om s e q sl tp).2 := by
  have hnotin : generateOrderID om.nextID ∉ om.orders.map Prod.fst :=
    (mapFind_eq_none_iff _ _).mp hfresh
  have hnotopen : generateOrderID om.nextID ∉ om.openOrders := by
    intro hmem
    obtain ⟨o, h1, -⟩ := (hInv.openIff _).mp hmem
    rw [hfresh] at h1
    cases h1
  refine ⟨?_, ?_, ?_, ?_⟩
  · rw [show (OpenShort om s e q sl tp).2.orders
        = mapInsert om.orders (generateOrderID om.nextID) _ from rfl,
      mapKeys_insert_none _ _ _ hfresh]
    exact hInv.keysNodup.append (List.nodup_singleton _)
      (fun x hx hy => hnotin (by rwa [List.mem_singleton.mp hy] at hx))
  · intro id
    show id ∈ om.openOrders ++ [generateOrderID om.nextID] ↔ _
    by_cases hid : id = generateOrderID om.nextID
    · subst hid
      refine iff_of_true (List.mem_append_right _ (List.mem_singleton_self _)) ?_
      exact ⟨_, mapFind_insert_self _ _ _, newLocalOrder_status _ _ _ _ _ _ _⟩
    · rw [show mapFind (OpenShort om s e q sl tp).2.orders id
          = mapFind om.orders id from mapFind_insert_ne _ _ _ _ (fun h => hid h.symm)]
      rw [List.mem_append, List.mem_singleton]
      simp only [hid, or_false]
      exact hInv.openIff id
  · exact hInv.openNodup.append (List.nodup_singleton _)
      (fun x hx hy => hnotopen (by rwa [List.mem_singleton.mp hy] at hx))
  · show om.totalPnL = sumClosedPnL (mapInsert om.orders (generateOrderID om.nextID) _)
    rw [sumClosedPnL_insert_none _ _ _ hfresh, hInv.pnl]
    simp [contrPnL, newLocalOrder_status]

lemma closeOrder_ok_inv (om : OrderManager) (orderID : String) (p f g : ℚ)
    (om' : OrderManager) (hInv : OMInv om)
    (hok : CloseOrder om orderID p f g = Except.ok om') : OMInv om' := by
  cases hfind : mapFind om.orders orderID with
  | none => simp [CloseOrder, hfind] at hok
  | some o =>
    by_cases hst : o.Status ≠ OrderStatus.OPEN
    · simp [CloseOrder, hfind, hst] at hok
    · have hopen : o.Status = OrderStatus.OPEN := not_not.mp hst
      simp only [CloseOrder, hfind, if_neg hst] at hok
      obtain rfl : _ = om' := congrArg (fun x => match x with
        | Except.ok v => v
        | Except.error _ => om) hok
      refine ⟨?_, ?_, ?_, ?_⟩
      · show ((mapInsert om.orders orderID _).map Prod.fst).Nodup
        rw [mapKeys_insert_some _ _ _ _ hfind]
        exact hInv.keysNodup
      · intro id
        by_cases hid : id = orderID
        · subst hid
          refine iff_of_false (not_mem_removeOpenOrder _ _ hInv.openNodup) ?_
          rintro ⟨o'', h1, h2⟩
          rw [mapFind_insert_self] at h1
          obtain rfl : _ = o'' := by injection h1
          exact absurd h2 (by simp)
        · show id ∈ removeOpenOrder om.openOrders orderID ↔ _
          rw [mem_removeOpenOrder_of_ne _ _ _ hid,
            show mapFind (mapInsert om.orders orderID _) id = mapFind om.orders id from
              mapFind_insert_ne _ _ _ _ (fun h => hid h.symm)]
          exact hInv.openIff id
      · exact hInv.openNodup.sublist (removeOpenOrder_sublist _ _)
      · show om.totalPnL + _ = sumClosedPnL (mapInsert om.orders orderID _)
        rw [sumClosedPnL_insert_some _ _ _ _ hfind, hInv.pnl]
        simp [contrPnL, hopen]

lemma updateOrderID_inv (om : OrderManager) (oldID newID : String) (hInv : OMInv om)
    (hfresh : mapFind om.orders newID = none) :
    OMInv (UpdateOrderID om oldID newID) := by
  cases hfind : mapFind om.orders oldID with
  | none =>
    simp only [UpdateOrderID, hfind]
    exact hInv
  | some o =>
    have hne : oldID ≠ newID := by
      intro h
      rw [h, hfresh] at hfind
      cases hfind
    simp only [UpdateOrderID, hfind]
    have hkeysIns := mapKeys_insert_none om.orders newID { o with ID := newID } hfresh
    have hnotin : newID ∉ om.orders.map Prod.fst := (mapFind_eq_none_iff _ _).mp hfresh
    have hnodupIns :
        ((mapInsert om.orders newID { o with ID := newID }).map Prod.fst).Nodup := by
      rw [hkeysIns]
      exact hInv.keysNodup.append (List.nodup_singleton _)
        (fun x hx hy => hnotin (by rwa [List.mem_singleton.mp hy] at hx))
    have hfind_old : mapFind (mapErase (mapInsert om.orders newID { o with ID := newID })
        oldID) oldID = none := mapFind_erase_self _ _ hnodupIns
    have hfind_new : mapFind (mapErase (mapInsert om.orders newID { o with ID := newID })
        oldID) newID = some { o with ID := newID } := by
      rw [mapFind_erase_ne _ _ _ hne, mapFind_insert_self]
    have hfind_other : ∀ id, id ≠ oldID → id ≠ newID →
        mapFind (mapErase (mapInsert om.orders newID { o with ID := newID }) oldID) id
          = mapFind om.orders id := by
      intro id h1 h2
      rw [mapFind_erase_ne _ _ _ (fun h => h1 h.symm),
        mapFind_insert_ne _ _ _ _ (fun h => h2 h.symm)]
    have hnew_notopen : newID ∉ om.openOrders := by
      intro hmem
      obtain ⟨o'', h1, -⟩ := (hInv.openIff _).mp hmem
      rw [hfresh] at h1
      cases h1
    have hold_mem : oldID ∈ om.openOrders ↔ o.Status = OrderStatus.OPEN := by
      rw [hInv.openIff oldID]
      constructor
      · rintro ⟨o'', h1, h2⟩
        rw [hfind] at h1
        obtain rfl : o = o'' := by injection h1
        exact h2
      · exact fun h => ⟨o, hfind, h⟩
    refine ⟨?_, ?_, ?_, ?_⟩
    · exact hnodupIns.sublist (mapErase_keys_sublist _ _)
    · intro id
      show id ∈ replaceFirst om.openOrders oldID newID ↔ _
      rw [mem_replaceFirst _ _ _ _ hInv.openNodup]
      by_cases hid_new : id = newID
      · subst hid_new
        rw [hfind_new]
        by_cases hO : o.Status = OrderStatus.OPEN
        · refine iff_of_true (Or.inl ⟨rfl, hold_mem.mpr hO⟩) ⟨_, rfl, by simpa using hO⟩
        · refine iff_of_false ?_ ?_
          · rintro (⟨-, h2⟩ | ⟨h3, -⟩)
            · exact hO (hold_mem.mp h2)
            · exact hnew_notopen h3
          · rintro ⟨o'', h1, h2⟩
            obtain rfl : _ = o'' := by injection h1
            exact hO (by simpa using h2)
      · by_cases hid_old : id = oldID
        · subst hid_old
          rw [hfind_old]
          refine iff_of_false ?_ ?_
          · rintro (⟨h1, -⟩ | ⟨-, h3⟩)
            · exact hid_new h1
            · exact h3 rfl
          · rintro ⟨o'', h1, -⟩
            cases h1
        · rw [hfind_other id hid_old hid_new]
          constructor
          · rintro (⟨h1, -⟩ | ⟨h2, -⟩)
            · exact absurd h1 hid_new
            · exact (hInv.openIff id).mp h2
          · intro h
            exact Or.inr ⟨(hInv.openIff id).mpr h, hid_old⟩
    · exact replaceFirst_nodup _ _ _ hInv.openNodup hnew_notopen
    · show om.totalPnL = sumClosedPnL (mapErase (mapInsert om.orders newID _) oldID)
      rw [sumClosedPnL_erase_some _ _ o
          (by rw [mapFind_insert_ne _ _ _ _ (fun h => hne h.symm)]; exact hfind),
        sumClosedPnL_insert_none _ _ _ hfresh, hInv.pnl]
      have : contrPnL { o with ID := newID } = contrPnL o := by simp [contrPnL]
      rw [this]
      ring

/-- Re-inserting an open order under its own key with another open order value
(the pointer mutation inside the tick loop) preserves the invariant. -/
lemma reinsert_open_inv (om : OrderManager) (orderID : String) (o v : LocalOrder)
    (hInv : OMInv om) (hfind : mapFind om.orders orderID = some o)
    (ho : o.Status = OrderStatus.OPEN) (hv : v.Status = OrderStatus.OPEN) :
    OMInv { om with orders := mapInsert om.orders orderID v } := by
  refine ⟨?_, ?_, hInv.openNodup, ?_⟩
  · show ((mapInsert om.orders orderID v).map Prod.fst).Nodup
    rw [mapKeys_insert_some _ _ _ _ hfind]
    exact hInv.keysNodup
  · intro id
    by_cases hid : id = orderID
    · subst hid
      show id ∈ om.openOrders ↔ _
      rw [mapFind_insert_self]
      constructor
      · intro _
        exact ⟨v, rfl, hv⟩
      · intro _
        exact (hInv.openIff id).mpr ⟨o, hfind, ho⟩
    · show id ∈ om.openOrders ↔ _
      rw [show mapFind (mapInsert om.orders orderID v) id = mapFind om.orders id from
        mapFind_insert_ne _ _ _ _ (fun h => hid h.symm)]
      exact hInv.openIff id
  · show om.totalPnL = sumClosedPnL (mapInsert om.orders orderID v)
    rw [sumClosedPnL_insert_some _ _ _ _ hfind, hInv.pnl]
    simp [contrPnL, ho, hv]

lemma checkStopStep_inv (p : ℚ) (acc : OrderManager × List String) (orderID : String)
    (hInv : OMInv acc.1) : OMInv (checkStopStep p acc orderID).1 := by
  simp only [checkStopStep]
  cases hfind : mapFind acc.1.orders orderID with
  | none => exact hInv
  | some o =>
    simp only [hfind]
    by_cases hst : o.Status ≠ OrderStatus.OPEN
    · rw [if_pos hst]
      exact hInv
    · have hopen : o.Status = OrderStatus.OPEN := not_not.mp hst
      rw [if_neg hst]
      have hvstat : (updateOrderOnTick o p).Status = OrderStatus.OPEN := by
        rw [(tick_fields o p).2.2.2.2.2.2.2]
        exact hopen
      have hInv1 : OMInv { acc.1 with
          orders := mapInsert acc.1.orders orderID (updateOrderOnTick o p) } :=
        reinsert_open_inv acc.1 orderID o (updateOrderOnTick o p) hInv hfind hopen hvstat
      split
      · cases hclose : CloseOrder { acc.1 with
            orders := mapInsert acc.1.orders orderID (updateOrderOnTick o p) }
            orderID p 0 0 with
        | ok om2 =>
          simp only [hclose]
          exact closeOrder_ok_inv _ _ _ _ _ _ hInv1 hclose
        | error e =>
          simp only [hclose]
          exact hInv1
      · exact hInv1

lemma foldl_checkStopStep_inv (p : ℚ) (ids : List String)
    (acc : OrderManager × List String) (hInv : OMInv acc.1) :
    OMInv (ids.foldl (checkStopStep p) acc).1 := by
  induction ids generalizing acc with
  | nil => exact hInv
  | cons id ids ih =>
    rw [List.foldl_cons]
    exact ih _ (checkStopStep_inv p acc id hInv)

lemma checkStop_inv (om : OrderManager) (p : ℚ) (hInv : OMInv om) :
    OMInv (CheckStopLossTakeProfit om p).1 :=
  foldl_checkStopStep_inv p om.openOrders (om, []) hInv

lemma applyOp_inv (om : OrderManager) (op : Op) (hInv : OMInv om)
    (hGood : GoodOp om op) : OMInv (applyOp om op) := by
  cases op with
  | openLong s e q sl tp => exact openLong_inv om s e q sl tp hInv hGood
  | openShort s e q sl tp => exact openShort_inv om s e q sl tp hInv hGood
  | closeOrder id p f g =>
    simp only [applyOp]
    cases hclose : CloseOrder om id p f g with
    | ok om' => exact closeOrder_ok_inv om id p f g om' hInv hclose
    | error e => exact hInv
  | updateOrderID oldID newID => exact updateOrderID_inv om oldID newID hInv hGood
  | checkStop p => exact checkStop_inv om p hInv

/-- C10 — corrected (the amended claim).  Starting from `NewOrderManager` — which
satisfies the invariant — any sequence of `OpenLong`, `OpenShort`, `CloseOrder`,
`UpdateOrderID` and `CheckStopLossTakeProfit` operations preserves it, provided
every locally generated ID and every `UpdateOrderID` target ID is fresh (the
uniqueness the source's time-based `generateOrderID` and exchange-issued IDs
are assumed to provide; the counterexample shows the invariant breaks without
it): the open-order list holds exactly the IDs of open orders with no
duplicates, and the total PnL is the sum of the closed orders' PnL.  Moreover
`CloseOrder` on a missing or non-open order returns an error and leaves the
manager unchanged, so a closed order's PnL is counted exactly once. -/
theorem orderManager_invariant :
    OMInv NewOrderManager
    ∧ (∀ (om : OrderManager) (ops : List Op), OMInv om → GoodOps om ops →
        OMInv (applyOps om ops))
    ∧ (∀ (om : OrderManager) (orderID : String) (p f g : ℚ),
        (mapFind om.orders orderID = none
          ∨ ∃ o, mapFind om.orders orderID = some o ∧ o.Status ≠ OrderStatus.OPEN) →
        (∃ e, CloseOrder om orderID p f g = Except.error e)
        ∧ applyOp om (Op.closeOrder orderID p f g) = om) := by
  refine ⟨?_, ?_, ?_⟩
  · refine ⟨List.nodup_nil, ?_, List.nodup_nil, rfl⟩
    intro id
    simp [NewOrderManager, mapFind]
  · intro om ops
    induction ops generalizing om with
    | nil => exact fun hInv _ => hInv
    | cons op ops ih =>
      intro hInv hGood
      exact ih (applyOp om op) (applyOp_inv om op hInv hGood.1) hGood.2
  · intro om orderID p f g hbad
    have herr : ∃ e, CloseOrder om orderID p f g = Except.error e := by
      rcases hbad with h1 | ⟨o, h2, h3⟩
      · exact ⟨"order does not exist: " ++ orderID, by simp [CloseOrder, h1]⟩
      · exact ⟨"order status is not open: " ++ orderID, by simp [CloseOrder, h2, h3]⟩
    obtain ⟨e, he⟩ := herr
    exact ⟨⟨e, he⟩, by simp [applyOp, he]⟩

/-- Witness for `orderManager_invariant`: a concrete run — open a long, close
it, open a short, tick the price (closing the short through the stop-loss
check), rename the next ID — keeps the invariant, and a `CloseOrder` on an
unknown ID is an error leaving the fresh manager unchanged. -/
theorem orderManager_invariant_witness :
    OMInv (applyOps NewOrderManager
      [Op.openLong "SYM" 100 1 99.75 100.6,
       Op.closeOrder (generateOrderID 0) 101 0 0,
       Op.openShort "SYM" 100 1 100.25 99.4,
       Op.checkStop 98,
       Op.updateOrderID (generateOrderID 1) "EXCHANGE_1"])
    ∧ applyOp NewOrderManager (Op.closeOrder "missing" 1 0 0) = NewOrderManager :=
  ⟨orderManager_invariant.2.1 NewOrderManager _ orderManager_invariant.1
      (by with_unfolding_all decide),
   (orderManager_invariant.2.2 NewOrderManager "missing" 1 0 0
      (Or.inl (by with_unfolding_all decide))).2⟩

end Vagues
